import Mathlib

/-!
Verification of the route-optimization core (ant-colony optimization with an
OSRM distance oracle) from `backend/app/services/route_optimizer.py`.

The Python module is shallowly embedded: locations are exact rational
latitude/longitude pairs, distances are rationals (reals only where the
haversine fallback's trigonometry demands), the stochastic selection of
`random.choices` is an adversarial `Pick` parameter, and the unbounded
`while` loop of the 2-opt refiner becomes a fuel-indexed iteration whose
convergence is stated explicitly.
-/

namespace RouteOpt

/-- A latitude/longitude pair, matching the `{"lat": .., "lon": ..}` dictionaries. -/
abbrev Loc : Type := ℚ × ℚ

/-- Route geometry: an ordered list of coordinate pairs. -/
abbrev Geometry : Type := List (ℚ × ℚ)

/-- The `Container` dataclass: container data model for routing. -/
structure Container where
  container_id : ℕ
  latitude : ℚ
  longitude : ℚ
  vehicle_type : String
deriving DecidableEq

/-- The `RouteStop` dataclass: a stop in the route. -/
structure RouteStop where
  container_id : ℕ
  latitude : ℚ
  longitude : ℚ
  distance_from_previous : ℚ
  cumulative_distance : ℚ
  order : ℕ
  geometry_to_here : Option Geometry
deriving DecidableEq

/-- The `RouteResult` dataclass: complete route optimization result. -/
structure RouteResult where
  neighborhood : String
  vehicle_type : String
  total_distance_km : ℚ
  total_containers : ℕ
  stops : List RouteStop
  requires_multiple_trips : Bool
  trip_count : ℕ
deriving DecidableEq

/-- The `DEPOT_LOCATION` constant from the module. -/
def DEPOT_LOCATION : Loc := (40.19653566137532, 28.93751059947524)

/-- Constant `ACO_NUM_ANTS`: number of ants per iteration. -/
def ACO_NUM_ANTS : ℕ := 100

/-- Constant `ACO_NUM_ITERATIONS`: number of iterations. -/
def ACO_NUM_ITERATIONS : ℕ := 20

/-- Constant `ACO_ALPHA = 1.0`: pheromone importance (a natural exponent in the source's use). -/
def ACO_ALPHA : ℕ := 1

/-- Constant `ACO_BETA = 2.0`: distance heuristic importance. -/
def ACO_BETA : ℕ := 2

/-- Constant `ACO_RHO = 0.1`: evaporation rate. -/
def ACO_RHO : ℚ := 1/10

/-- Constant `ACO_Q = 100.0`: pheromone deposit factor. -/
def ACO_Q : ℚ := 100

/-- Constant `ACO_ELITE_WEIGHT = 2.0`: extra weight for the best solution. -/
def ACO_ELITE_WEIGHT : ℚ := 2

/-- Constant `ACO_INITIAL_PHEROMONE = 0.01`: initial pheromone level. -/
def ACO_INITIAL_PHEROMONE : ℚ := 1/100

/-- Outcome of one OSRM query for an ordered pair of locations: a successful
route (`ok`), a well-formed response with no feasible route (`noRoute`, the
source's `code != "Ok"` / empty `routes` branch), or a network/provider
failure (`netFail`, the source's `requests.exceptions.RequestException`
branch). -/
inductive OracleOutcome where
  | ok (distanceKm : ℚ) (geometry : Geometry)
  | noRoute
  | netFail
deriving DecidableEq

/-- The external world: what the OSRM provider answers for each ordered pair. -/
abbrev World : Type := Loc → Loc → OracleOutcome

/-- Degrees-to-radians conversion used by `_euclidean_distance`. -/
noncomputable def radians (x : ℚ) : ℝ := (x : ℝ) * Real.pi / 180

/-- Embedding of `OSRMClient._euclidean_distance`: haversine great-circle fallback,
Earth radius 6371 km. -/
noncomputable def haversine (fromPoint toPoint : Loc) : ℝ :=
  let lat1 := radians fromPoint.1
  let lon1 := radians fromPoint.2
  let lat2 := radians toPoint.1
  let lon2 := radians toPoint.2
  let dlat := lat2 - lat1
  let dlon := lon2 - lon1
  let a := Real.sin (dlat/2) ^ 2 + Real.cos lat1 * Real.cos lat2 * Real.sin (dlon/2) ^ 2
  let c := 2 * Real.arcsin (Real.sqrt a)
  c * 6371

/-- Embedding of `OSRMClient.get_distance`: returns `(some distance, some geometry)` on a
successful provider response, `(none, none)` when the provider reports no
feasible route, and `(some (fallback a b), none)` on a network failure (the
`except RequestException` branch falls back to `_euclidean_distance`).  The
distance type `α` is a parameter so that the same definition can be read with
real-valued haversine fallback (as the source computes it) or with a
rational-valued abstraction of it. -/
def OSRMClient.get_distance {α : Type} [RatCast α] (world : World)
    (fallback : Loc → Loc → α) (fromPoint toPoint : Loc) :
    Option α × Option Geometry :=
  match world fromPoint toPoint with
  | .ok d g => (some (d : α), some g)
  | .noRoute => (none, none)
  | .netFail => (some (fallback fromPoint toPoint), none)

/-- The list of all locations built by `_build_distance_matrix`
(depot first, then the containers). -/
def RouteOptimizer.locationsOf (depot : Loc) (containers : List Container) : List Loc :=
  depot :: containers.map (fun c => (c.latitude, c.longitude))

/-- Embedding of `RouteOptimizer._build_distance_matrix`: for every ordered pair `(i, j)`
with `i ≠ j` (and both in range) query the oracle once; store the returned
distance, or the sentinel `999.0` when the oracle yields no distance.  The
geometry cache gets an entry exactly when a distance was returned (its value
being the — possibly absent — geometry). -/
def RouteOptimizer.build_distance_matrix {α : Type} [RatCast α] [Zero α] [OfNat α 999]
    (world : World) (fallback : Loc → Loc → α) (depot : Loc)
    (containers : List Container) :
    (ℕ → ℕ → α) × (ℕ × ℕ → Option (Option Geometry)) :=
  let n := containers.length + 1
  let locations := RouteOptimizer.locationsOf depot containers
  let entry : ℕ → ℕ → Option α × Option Geometry := fun i j =>
    OSRMClient.get_distance world fallback (locations.getD i depot) (locations.getD j depot)
  (fun i j =>
    if i = j ∨ n ≤ i ∨ n ≤ j then 0
    else
      match entry i j with
      | (some d, _) => d
      | (none, _) => 999,
   fun ij =>
    if ij.1 = ij.2 ∨ n ≤ ij.1 ∨ n ≤ ij.2 then none
    else
      match entry ij.1 ij.2 with
      | (some _, g) => some g
      | (none, _) => none)

/-- Embedding of `RouteOptimizer._initialize_pheromones`: an `n × n` matrix with every
entry equal to `ACO_INITIAL_PHEROMONE` (modelled as a total function; only
indices below `n` are ever read). -/
def RouteOptimizer.initialize_pheromones (_n : ℕ) : ℕ → ℕ → ℚ :=
  fun _ _ => ACO_INITIAL_PHEROMONE

/-- The desirability score computed inside `_select_next_container` for one
candidate: `tau * eta` with `tau = pheromones[current][idx] ** ACO_ALPHA` and
`eta = (1 / distances[current][idx]) ** ACO_BETA` when the distance is
positive, else `0`. -/
def selectionWeight (pheromones distances : ℕ → ℕ → ℚ) (current idx : ℕ) : ℚ :=
  let tau := pheromones current idx ^ ACO_ALPHA
  let eta :=
    if distances current idx > 0 then (1 / distances current idx) ^ ACO_BETA else 0
  tau * eta

/-- The probability list handed to `random.choices` by
`_select_next_container`: the normalized desirability scores, or the uniform
distribution when their total is not positive. -/
def selectionProbs (pheromones distances : ℕ → ℕ → ℚ) (current : ℕ)
    (unvisited : List ℕ) : List ℚ :=
  let probabilities := unvisited.map (selectionWeight pheromones distances current)
  let total := probabilities.sum
  if total > 0 then probabilities.map (fun p => p / total)
  else List.replicate unvisited.length (1 / (unvisited.length : ℚ))

/-- The random draw of `random.choices(unvisited, weights=probabilities)[0]`,
abstracted: given a draw counter (the random state), the population and the
weights, produce one element.  Faithfulness of a concrete generator is the
hypothesis `ValidPick`. -/
abbrev Pick : Type := ℕ → List ℕ → List ℚ → ℕ

/-- The function `random.choices` always returns a member of its population. -/
def ValidPick (pick : Pick) : Prop :=
  ∀ s (l : List ℕ) (w : List ℚ), l ≠ [] → pick s l w ∈ l

/-- Embedding of `RouteOptimizer._select_next_container`: draw the next container from the
unvisited candidates with the normalized desirability weights. -/
def RouteOptimizer.select_next_container (pick : Pick) (ctr : ℕ) (current_idx : ℕ)
    (unvisited_indices : List ℕ) (pheromones distances : ℕ → ℕ → ℚ) : ℕ :=
  pick ctr unvisited_indices (selectionProbs pheromones distances current_idx unvisited_indices)

/-- The `while unvisited:` loop of `_construct_ant_solution`, indexed by the
number of remaining stops (which is exactly the loop's iteration count, since
each pass removes the selected index).  Returns the tour (0-indexed container
positions), the total distance including the closing depot leg, and the
advanced draw counter. -/
def RouteOptimizer.construct_ant_loop (pick : Pick) (pheromones distances : ℕ → ℕ → ℚ) :
    ℕ → ℕ → List ℕ → ℕ → List ℕ × ℚ × ℕ
  | 0, current_idx, _unvisited, ctr => ([], distances current_idx 0, ctr)
  | fuel + 1, current_idx, unvisited, ctr =>
    match unvisited with
    | [] => ([], distances current_idx 0, ctr)
    | _ :: _ =>
      let next_idx :=
        RouteOptimizer.select_next_container pick ctr current_idx unvisited pheromones distances
      let rest :=
        RouteOptimizer.construct_ant_loop pick pheromones distances fuel next_idx
          (unvisited.erase next_idx) (ctr + 1)
      ((next_idx - 1) :: rest.1, distances current_idx next_idx + rest.2.1, rest.2.2)

/-- Embedding of `RouteOptimizer._construct_ant_solution`: start at the depot (index 0)
with unvisited container indices `1 .. num_containers` and visit them all. -/
def RouteOptimizer.construct_ant_solution (pick : Pick) (pheromones distances : ℕ → ℕ → ℚ)
    (num_containers : ℕ) (ctr : ℕ) : List ℕ × ℚ × ℕ :=
  RouteOptimizer.construct_ant_loop pick pheromones distances num_containers 0
    (List.range' 1 num_containers) ctr

/-- The ordered edges along which `_update_pheromones` deposits for a tour:
depot to first container, consecutive containers, last container to depot.
(The source indexes `tour_indices[0]` and `tour_indices[-1]`, so the tour is
never empty there; an empty tour deposits along no edge.) -/
def tourEdges : List ℕ → List (ℕ × ℕ)
  | [] => []
  | t₀ :: rest =>
    (0, t₀ + 1) ::
      (((t₀ :: rest).zip rest).map (fun e => (e.1 + 1, e.2 + 1)) ++
        [((t₀ :: rest).getLast (List.cons_ne_nil t₀ rest) + 1, 0)])

/-- Add `amount` to one pheromone entry. -/
def addPheromone (p : ℕ → ℕ → ℚ) (e : ℕ × ℕ) (amount : ℚ) : ℕ → ℕ → ℚ :=
  fun i j => if i = e.1 ∧ j = e.2 then p i j + amount else p i j

/-- Deposit `amount` on every edge of a tour. -/
def depositAlong (p : ℕ → ℕ → ℚ) (tour : List ℕ) (amount : ℚ) : ℕ → ℕ → ℚ :=
  (tourEdges tour).foldl (fun acc e => addPheromone acc e amount) p

/-- Embedding of `RouteOptimizer._update_pheromones`: evaporate every entry by the factor
`1 - ACO_RHO`, deposit `ACO_Q / distance` along the iteration-best tour when
its distance is positive, and additionally deposit
`ACO_ELITE_WEIGHT * ACO_Q / distance` along the global best tour when present
with positive distance. -/
def RouteOptimizer.update_pheromones (pheromones : ℕ → ℕ → ℚ)
    (_all_tours : List (List ℕ × ℚ)) (best_tour : List ℕ × ℚ)
    (global_best_tour : Option (List ℕ × ℚ)) : ℕ → ℕ → ℚ :=
  let evaporated : ℕ → ℕ → ℚ := fun i j => (1 - ACO_RHO) * pheromones i j
  let afterBest :=
    if best_tour.2 > 0 then depositAlong evaporated best_tour.1 (ACO_Q / best_tour.2)
    else evaporated
  match global_best_tour with
  | some gb =>
    if gb.2 > 0 then depositAlong afterBest gb.1 (ACO_ELITE_WEIGHT * ACO_Q / gb.2)
    else afterBest
  | none => afterBest

/-- Sum of the matrix distances along consecutive elements of a path. -/
def pathCost (dm : ℕ → ℕ → ℚ) : List ℕ → ℚ
  | [] => 0
  | [_] => 0
  | a :: b :: rest => dm a b + pathCost dm (b :: rest)

/-- The closed-path cost of a container tour: depot, the tour's stops in
order, then back to the depot. -/
def closedTourCost (dm : ℕ → ℕ → ℚ) (tour : List ℕ) : ℚ :=
  pathCost dm (0 :: tour.map (· + 1) ++ [0])

/-- The in-place reversal `path[i:j+1] = reversed(path[i:j+1])`: reverse the segment of positions
`i .. j` in place. -/
def reverseSegment (path : List ℕ) (i j : ℕ) : List ℕ :=
  path.take i ++ ((path.drop i).take (j + 1 - i)).reverse ++ path.drop (j + 1)

/-- One candidate 2-opt move of `_two_opt`: comparing the two current boundary
edges `(path[i-1], path[i])` and `(path[j], path[j+1])` against the two edges
obtained by reversing the segment `i .. j`. -/
def improveAt (dm : ℕ → ℕ → ℚ) (path : List ℕ) (i j : ℕ) : Option (List ℕ) :=
  let current_dist := dm (path.getD (i-1) 0) (path.getD i 0) + dm (path.getD j 0) (path.getD (j+1) 0)
  let new_dist := dm (path.getD (i-1) 0) (path.getD j 0) + dm (path.getD i 0) (path.getD (j+1) 0)
  if new_dist < current_dist then some (reverseSegment path i j) else none

/-- One pass of the doubly-nested scan of `_two_opt`: the first improving pair
`(i, j)` with `1 ≤ i < j ≤ len(path) - 2` in scan order, applied; `none` when
a full scan finds no improvement. -/
def firstImprove (dm : ℕ → ℕ → ℚ) (path : List ℕ) : Option (List ℕ) :=
  (List.range' 1 (path.length - 3)).findSome? fun i =>
    (List.range' (i + 1) (path.length - 2 - i)).findSome? fun j =>
      improveAt dm path i j

/-- The `while improved:` loop of `_two_opt` as a fuel-indexed iteration: each
step applies the first improving reversal and restarts the scan; the loop has
converged once `firstImprove` returns `none`. -/
def twoOptLoop (dm : ℕ → ℕ → ℚ) : ℕ → List ℕ → List ℕ
  | 0, path => path
  | fuel + 1, path =>
    match firstImprove dm path with
    | none => path
    | some path' => twoOptLoop dm fuel path'

/-- Embedding of `RouteOptimizer._two_opt`: build the full path `[0] ++ (tour + 1) ++ [0]`,
iterate first-improvement reversals, and return the container part of the
resulting path. -/
def RouteOptimizer.two_opt (dm : ℕ → ℕ → ℚ) (fuel : ℕ) (tour : List ℕ) : List ℕ :=
  let path := 0 :: tour.map (· + 1) ++ [0]
  (((twoOptLoop dm fuel path).drop 1).dropLast).map (· - 1)

/-- The inner `for ant_id in range(ACO_NUM_ANTS)` loop of `_create_aco_route`:
construct a tour, refine it with 2-opt, recompute the refined tour's closed
distance from the matrix, and collect the `(tour, distance)` pairs (threading
the draw counter through the ants). -/
def RouteOptimizer.run_ants (pick : Pick) (pheromones distances : ℕ → ℕ → ℚ)
    (num_containers fuel : ℕ) : ℕ → ℕ → List (List ℕ × ℚ) × ℕ
  | 0, ctr => ([], ctr)
  | ants + 1, ctr =>
    let sol := RouteOptimizer.construct_ant_solution pick pheromones distances num_containers ctr
    let refined_tour := RouteOptimizer.two_opt distances fuel sol.1
    let refined_distance := pathCost distances (0 :: refined_tour.map (· + 1) ++ [0])
    let rest := RouteOptimizer.run_ants pick pheromones distances num_containers fuel ants sol.2.2
    ((refined_tour, refined_distance) :: rest.1, rest.2)

/-- The selection `min(iteration_tours, key=lambda x: x[1])`: the first pair of least
distance (`none` on an empty list, where Python would raise). -/
def minByDistance (tours : List (List ℕ × ℚ)) : Option (List ℕ × ℚ) :=
  tours.foldl
    (fun acc t =>
      match acc with
      | none => some t
      | some b => if t.2 < b.2 then some t else some b)
    none

/-- The outer `for iteration in range(ACO_NUM_ITERATIONS)` loop of
`_create_aco_route`: run all ants, pick the iteration best, update the global
best when strictly better, and update the pheromones (which receive the
already-updated global best, as in the source).  Returns the global best. -/
def RouteOptimizer.aco_iterations (pick : Pick) (distances : ℕ → ℕ → ℚ)
    (num_containers fuel numAnts : ℕ) :
    ℕ → (ℕ → ℕ → ℚ) → Option (List ℕ × ℚ) → ℕ → Option (List ℕ × ℚ)
  | 0, _pheromones, global_best, _ctr => global_best
  | iters + 1, pheromones, global_best, ctr =>
    let ants := RouteOptimizer.run_ants pick pheromones distances num_containers fuel numAnts ctr
    match minByDistance ants.1 with
    | none =>
      RouteOptimizer.aco_iterations pick distances num_containers fuel numAnts iters
        pheromones global_best ants.2
    | some best_iter_tour =>
      let global_best' :=
        match global_best with
        | none => some best_iter_tour
        | some g => if best_iter_tour.2 < g.2 then some best_iter_tour else some g
      let pheromones' :=
        RouteOptimizer.update_pheromones pheromones ants.1 best_iter_tour global_best'
      RouteOptimizer.aco_iterations pick distances num_containers fuel numAnts iters
        pheromones' global_best' ants.2

/-- Fallback container for out-of-range indexing (never reached on the tours
the colony produces, which index into the container list). -/
def dummyContainer : Container := ⟨0, 0, 0, ""⟩

/-- The route-reconstruction loop at the end of `_create_aco_route`: walk the
winning tour with `enumerate(tour_indices, start=1)`, look up each leg's
matrix distance and cached geometry, and accumulate the cumulative distance. -/
def RouteOptimizer.assemble_stops (dm : ℕ → ℕ → ℚ)
    (cache : ℕ × ℕ → Option (Option Geometry)) (containers : List Container) :
    List ℕ → ℕ → ℕ → ℚ → List RouteStop
  | [], _prev_idx, _order, _cum => []
  | container_idx :: rest, prev_idx, order, cum =>
    let curr_idx := container_idx + 1
    let segment_distance := dm prev_idx curr_idx
    let geometry := (cache (prev_idx, curr_idx)).join
    let cum' := cum + segment_distance
    let c := containers.getD container_idx dummyContainer
    { container_id := c.container_id, latitude := c.latitude, longitude := c.longitude,
      distance_from_previous := segment_distance, cumulative_distance := cum',
      order := order, geometry_to_here := geometry } ::
      RouteOptimizer.assemble_stops dm cache containers rest curr_idx (order + 1) cum'

/-- Embedding of `RouteOptimizer._create_aco_route` with the ant count and iteration count
as explicit parameters (the source reads the module constants
`ACO_NUM_ANTS` / `ACO_NUM_ITERATIONS`; `optimize_route` below passes exactly
those).  `hv` abstracts the rational value of the haversine fallback and
`fuel` bounds the 2-opt refinement loop. -/
def RouteOptimizer.create_aco_route (world : World) (hv : Loc → Loc → ℚ) (pick : Pick)
    (numAnts numIters fuel : ℕ) (depot : Loc) (containers : List Container) :
    List RouteStop :=
  if containers = [] then []
  else
    let built := RouteOptimizer.build_distance_matrix world hv depot containers
    let pheromones := RouteOptimizer.initialize_pheromones (containers.length + 1)
    match RouteOptimizer.aco_iterations pick built.1 containers.length fuel numAnts numIters
        pheromones none 0 with
    | none => []
    | some global_best => RouteOptimizer.assemble_stops built.1 built.2 containers global_best.1 0 1 0

/-- The total-distance computation at the end of `optimize_route`: the sum of
the stops' leg distances, plus a freshly queried return-to-depot distance —
added only when that query yields a distance. -/
def RouteOptimizer.total_with_return (world : World) (hv : Loc → Loc → ℚ)
    (depot : Loc) (stops : List RouteStop) : ℚ :=
  let total₀ := (stops.map (fun s => s.distance_from_previous)).sum
  match stops.getLast? with
  | none => total₀
  | some last_stop =>
    match (OSRMClient.get_distance (α := ℚ) world hv
        (last_stop.latitude, last_stop.longitude) depot).1 with
    | some return_distance => total₀ + return_distance
    | none => total₀

/-- Embedding of `RouteOptimizer.optimize_route`: validate the input, compute the trip
flags, truncate to the first `vehicle_capacity` containers, build the ACO
route, and total the legs plus a freshly queried return-to-depot distance
(skipped when that query yields no distance). -/
def RouteOptimizer.optimize_route (world : World) (hv : Loc → Loc → ℚ) (pick : Pick)
    (fuel : ℕ) (neighborhood : String) (containers : List Container)
    (vehicle_capacity : ℕ) (depotArg : Option Loc) : Except String RouteResult :=
  if containers = [] then .error "No containers provided"
  else
    let depot := depotArg.getD DEPOT_LOCATION
    let vehicle_type := match containers with
      | [] => "Unknown"
      | c :: _ => c.vehicle_type
    let requires_multiple_trips : Bool := decide (containers.length > vehicle_capacity)
    let trip_count := (containers.length + vehicle_capacity - 1) / vehicle_capacity
    let containers_to_route := containers.take vehicle_capacity
    let stops := RouteOptimizer.create_aco_route world hv pick ACO_NUM_ANTS ACO_NUM_ITERATIONS
      fuel depot containers_to_route
    .ok { neighborhood := neighborhood, vehicle_type := vehicle_type,
          total_distance_km := RouteOptimizer.total_with_return world hv depot stops,
          total_containers := containers_to_route.length,
          stops := stops, requires_multiple_trips := requires_multiple_trips,
          trip_count := trip_count }

/-- A distance matrix is symmetric when every ordered pair costs the same in
both directions. -/
def SymmetricMatrix (dm : ℕ → ℕ → ℚ) : Prop :=
  ∀ i j, dm i j = dm j i

/-- Splitting the cost of a concatenated path at the junction. -/
theorem pathCost_append (dm : ℕ → ℕ → ℚ) :
    ∀ (X Y : List ℕ), X ≠ [] → Y ≠ [] →
      pathCost dm (X ++ Y) =
        pathCost dm X + dm (X.getLast?.getD 0) (Y.headD 0) + pathCost dm Y
  | [], _, hX, _ => absurd rfl hX
  | [x], Y, _, hY => by
    cases Y with
    | nil => exact absurd rfl hY
    | cons y t => simp [pathCost]
  | x :: x' :: X, Y, _, hY => by
    have ih := pathCost_append dm (x' :: X) Y (List.cons_ne_nil _ _) hY
    simp only [List.cons_append, List.append_eq, pathCost] at ih ⊢
    rw [ih, List.getLast?_cons_cons]
    ring

/-- Reversing a path preserves its cost over a symmetric matrix. -/
theorem pathCost_reverse (dm : ℕ → ℕ → ℚ) (hsym : SymmetricMatrix dm) :
    ∀ (S : List ℕ), pathCost dm S.reverse = pathCost dm S
  | [] => rfl
  | [_] => rfl
  | a :: b :: t => by
    have ih := pathCost_reverse dm hsym (b :: t)
    have hrev : (a :: b :: t).reverse = (b :: t).reverse ++ [a] := by
      simp
    rw [hrev, pathCost_append dm _ _ (by simp) (by simp), ih]
    have hlast : (b :: t).reverse.getLast? = some b := by
      simp [List.getLast?_reverse]
    rw [hlast]
    simp only [Option.getD_some, List.headD, pathCost]
    rw [hsym a b]
    ring

/-- Extracting the scan bounds and the accepted move from one pass of the
2-opt scan. -/
theorem firstImprove_spec (dm : ℕ → ℕ → ℚ) (p p' : List ℕ)
    (h : firstImprove dm p = some p') :
    ∃ i j, 1 ≤ i ∧ i < j ∧ j + 2 ≤ p.length ∧ improveAt dm p i j = some p' := by
  obtain ⟨i, hi, hfi⟩ := List.exists_of_findSome?_eq_some h
  obtain ⟨j, hj, hfj⟩ := List.exists_of_findSome?_eq_some hfi
  rw [List.mem_range'_1] at hi hj
  exact ⟨i, j, by omega, by omega, by omega, hfj⟩

/-- The accepted move of `improveAt`: the acceptance inequality holds and the
new path is the segment reversal. -/
theorem improveAt_spec (dm : ℕ → ℕ → ℚ) (p p' : List ℕ) (i j : ℕ)
    (h : improveAt dm p i j = some p') :
    dm (p.getD (i-1) 0) (p.getD j 0) + dm (p.getD i 0) (p.getD (j+1) 0) <
      dm (p.getD (i-1) 0) (p.getD i 0) + dm (p.getD j 0) (p.getD (j+1) 0) ∧
    p' = reverseSegment p i j := by
  unfold improveAt at h
  by_cases hlt : dm (p.getD (i-1) 0) (p.getD j 0) + dm (p.getD i 0) (p.getD (j+1) 0) <
      dm (p.getD (i-1) 0) (p.getD i 0) + dm (p.getD j 0) (p.getD (j+1) 0)
  · rw [if_pos hlt] at h
    exact ⟨hlt, (Option.some_inj.mp h).symm⟩
  · rw [if_neg hlt] at h
    exact absurd h (by simp)

/-- The reversed-segment path, written with right-nested appends. -/
theorem reverseSegment_eq (p : List ℕ) (i j : ℕ) :
    reverseSegment p i j =
      p.take i ++ (((p.drop i).take (j + 1 - i)).reverse ++ p.drop (j + 1)) := by
  simp [reverseSegment, List.append_assoc]

/-- A path splits as prefix, scanned segment, and suffix. -/
theorem segment_decomposition (p : List ℕ) (i j : ℕ) (hile : i ≤ j + 1) :
    p = p.take i ++ ((p.drop i).take (j + 1 - i) ++ p.drop (j + 1)) := by
  have h1 : ((p.drop i).take (j + 1 - i)) ++ ((p.drop i).drop (j + 1 - i)) = p.drop i :=
    List.take_append_drop _ _
  have h2 : (p.drop i).drop (j + 1 - i) = p.drop (j + 1) := by
    rw [List.drop_drop]
    congr 1
    omega
  conv_lhs => rw [← List.take_append_drop i p, ← h1, h2]

/-- Lengths of the three parts of the decomposition. -/
theorem segment_part_lengths (p : List ℕ) (i j : ℕ)
    (h1 : 1 ≤ i) (h2 : i < j) (h3 : j + 2 ≤ p.length) :
    (p.take i).length = i ∧ ((p.drop i).take (j + 1 - i)).length = j + 1 - i ∧
      (p.drop (j + 1)).length = p.length - (j + 1) := by
  refine ⟨?_, ?_, by simp⟩
  · simp only [List.length_take]
    omega
  · simp only [List.length_take, List.length_drop]
    omega

/-- The four path entries the 2-opt acceptance test reads, located at the
ends of the decomposition's parts. -/
theorem segment_endpoints (p : List ℕ) (i j : ℕ)
    (h1 : 1 ≤ i) (h2 : i < j) (h3 : j + 2 ≤ p.length) :
    (p.take i).getLast?.getD 0 = p.getD (i - 1) 0 ∧
    ((p.drop i).take (j + 1 - i)).headD 0 = p.getD i 0 ∧
    ((p.drop i).take (j + 1 - i)).getLast?.getD 0 = p.getD j 0 ∧
    (p.drop (j + 1)).headD 0 = p.getD (j + 1) 0 := by
  obtain ⟨lA, lS, _⟩ := segment_part_lengths p i j h1 h2 h3
  refine ⟨?_, ?_, ?_, ?_⟩
  · rw [List.getLast?_eq_getElem?, lA, List.getD_eq_getElem?_getD]
    have h : (p.take i)[i - 1]? = p[i - 1]? := by
      rw [List.getElem?_take, if_pos (by omega)]
    rw [h]
  · rw [List.headD_eq_head?, List.head?_eq_getElem?, List.getD_eq_getElem?_getD]
    have h : ((p.drop i).take (j + 1 - i))[0]? = (p.drop i)[0]? := by
      rw [List.getElem?_take, if_pos (by omega)]
    rw [h, List.getElem?_drop, Nat.add_zero]
  · rw [List.getLast?_eq_getElem?, lS, List.getD_eq_getElem?_getD]
    have h : ((p.drop i).take (j + 1 - i))[j + 1 - i - 1]? = (p.drop i)[j + 1 - i - 1]? := by
      rw [List.getElem?_take, if_pos (by omega)]
    rw [h, List.getElem?_drop]
    have h2' : i + (j + 1 - i - 1) = j := by omega
    rw [h2']
  · rw [List.headD_eq_head?, List.head?_eq_getElem?, List.getD_eq_getElem?_getD,
      List.getElem?_drop, Nat.add_zero]

/-- Head default of an append with nonempty left part. -/
theorem headD_append_left (l₁ l₂ : List ℕ) (h : l₁ ≠ []) (d : ℕ) :
    (l₁ ++ l₂).headD d = l₁.headD d := by
  cases l₁ with
  | nil => exact absurd rfl h
  | cons a t => rfl

/-- An accepted 2-opt step over a symmetric matrix strictly decreases the
path cost: the two boundary edges change exactly as the acceptance test
assumes, and the reversed interior keeps its cost by symmetry. -/
theorem step_cost_lt (dm : ℕ → ℕ → ℚ) (hsym : SymmetricMatrix dm) (p p' : List ℕ)
    (h : firstImprove dm p = some p') : pathCost dm p' < pathCost dm p := by
  obtain ⟨i, j, h1, h2, h3, himp⟩ := firstImprove_spec dm p p' h
  obtain ⟨hlt, hp'⟩ := improveAt_spec dm p p' i j himp
  obtain ⟨lA, lS, lB⟩ := segment_part_lengths p i j h1 h2 h3
  obtain ⟨eA, eS1, eS2, eB⟩ := segment_endpoints p i j h1 h2 h3
  set A := p.take i with hA
  set S := (p.drop i).take (j + 1 - i) with hS
  set B := p.drop (j + 1) with hB
  have hAne : A ≠ [] := List.ne_nil_of_length_pos (by omega)
  have hSne : S ≠ [] := List.ne_nil_of_length_pos (by omega)
  have hBne : B ≠ [] := List.ne_nil_of_length_pos (by omega)
  have hSrne : S.reverse ≠ [] := by simpa using hSne
  have hdec : p = A ++ (S ++ B) := segment_decomposition p i j (by omega)
  have hcostp : pathCost dm p =
      pathCost dm A + dm (p.getD (i - 1) 0) (p.getD i 0) +
        (pathCost dm S + dm (p.getD j 0) (p.getD (j + 1) 0) + pathCost dm B) := by
    conv_lhs => rw [hdec]
    rw [pathCost_append dm A (S ++ B) hAne (by simp [hSne]),
      pathCost_append dm S B hSne hBne, headD_append_left S B hSne, eA, eS1, eS2, eB]
  have hcostp' : pathCost dm p' =
      pathCost dm A + dm (p.getD (i - 1) 0) (p.getD j 0) +
        (pathCost dm S + dm (p.getD i 0) (p.getD (j + 1) 0) + pathCost dm B) := by
    rw [hp', reverseSegment_eq, ← hA, ← hS, ← hB]
    rw [pathCost_append dm A (S.reverse ++ B) hAne (by simp [hSne]),
      pathCost_append dm S.reverse B hSrne hBne,
      headD_append_left S.reverse B hSrne, pathCost_reverse dm hsym S]
    rw [List.headD_eq_head?, List.head?_reverse, List.getLast?_reverse, ← List.headD_eq_head?,
      eA, eS1, eS2, eB]
  rw [hcostp, hcostp']
  linarith

/-- An accepted 2-opt step preserves the path's multiset, its two endpoints,
the multiset of its interior, and its length. -/
theorem step_structure (dm : ℕ → ℕ → ℚ) (p p' : List ℕ)
    (h : firstImprove dm p = some p') :
    p'.Perm p ∧ p'.head? = p.head? ∧ p'.getLast? = p.getLast? ∧
      ((p'.drop 1).dropLast).Perm ((p.drop 1).dropLast) ∧ p'.length = p.length := by
  obtain ⟨i, j, h1, h2, h3, himp⟩ := firstImprove_spec dm p p' h
  obtain ⟨-, hp'⟩ := improveAt_spec dm p p' i j himp
  obtain ⟨lA, lS, lB⟩ := segment_part_lengths p i j h1 h2 h3
  set A := p.take i with hA
  set S := (p.drop i).take (j + 1 - i) with hS
  set B := p.drop (j + 1) with hB
  have hAne : A ≠ [] := List.ne_nil_of_length_pos (by omega)
  have hSne : S ≠ [] := List.ne_nil_of_length_pos (by omega)
  have hBne : B ≠ [] := List.ne_nil_of_length_pos (by omega)
  have hSrne : S.reverse ≠ [] := by simpa using hSne
  have hdec : p = A ++ (S ++ B) := segment_decomposition p i j (by omega)
  have hform : p' = A ++ (S.reverse ++ B) := by
    rw [hp', reverseSegment_eq, ← hA, ← hS, ← hB]
  have hperm : p'.Perm p := by
    rw [hform]
    conv_rhs => rw [hdec]
    exact ((List.reverse_perm S).append_right B).append_left A
  refine ⟨hperm, ?_, ?_, ?_, hperm.length_eq⟩
  · rw [hform]
    conv_rhs => rw [hdec]
    rw [List.head?_append_of_ne_nil _ hAne, List.head?_append_of_ne_nil _ hAne]
  · rw [hform]
    conv_rhs => rw [hdec]
    have e1 : (A ++ (S.reverse ++ B)).getLast? = (S.reverse ++ B).getLast? :=
      List.getLast?_append_of_ne_nil A (show S.reverse ++ B ≠ [] by simp [hBne])
    have e2 : (A ++ (S ++ B)).getLast? = (S ++ B).getLast? :=
      List.getLast?_append_of_ne_nil A (show S ++ B ≠ [] by simp [hBne])
    rw [e1, e2, List.getLast?_append_of_ne_nil S.reverse hBne,
      List.getLast?_append_of_ne_nil S hBne]
  · rw [hform]
    conv_rhs => rw [hdec]
    rw [List.drop_append_of_le_length (by omega), List.drop_append_of_le_length (by omega)]
    have e1 : (A.drop 1 ++ (S.reverse ++ B)).dropLast = A.drop 1 ++ (S.reverse ++ B).dropLast :=
      List.dropLast_append_of_ne_nil (A.drop 1) (show S.reverse ++ B ≠ [] by simp [hBne])
    have e2 : (A.drop 1 ++ (S ++ B)).dropLast = A.drop 1 ++ (S ++ B).dropLast :=
      List.dropLast_append_of_ne_nil (A.drop 1) (show S ++ B ≠ [] by simp [hBne])
    rw [e1, e2, List.dropLast_append_of_ne_nil S.reverse hBne,
      List.dropLast_append_of_ne_nil S hBne]
    exact (((List.reverse_perm S).append_right B.dropLast).append_left (A.drop 1))

/-- The refinement loop never increases the path cost over a symmetric
matrix, whatever its fuel. -/
theorem twoOptLoop_cost_le (dm : ℕ → ℕ → ℚ) (hsym : SymmetricMatrix dm) :
    ∀ (fuel : ℕ) (p : List ℕ), pathCost dm (twoOptLoop dm fuel p) ≤ pathCost dm p
  | 0, _ => le_refl _
  | fuel + 1, p => by
    unfold twoOptLoop
    cases hstep : firstImprove dm p with
    | none => exact le_refl _
    | some p' =>
      exact le_trans (twoOptLoop_cost_le dm hsym fuel p')
        (le_of_lt (step_cost_lt dm hsym p p' hstep))

/-- The refinement loop preserves the path's multiset, its two endpoints and
the multiset of its interior. -/
theorem twoOptLoop_structure (dm : ℕ → ℕ → ℚ) :
    ∀ (fuel : ℕ) (p : List ℕ),
      (twoOptLoop dm fuel p).Perm p ∧
      (twoOptLoop dm fuel p).head? = p.head? ∧
      (twoOptLoop dm fuel p).getLast? = p.getLast? ∧
      (((twoOptLoop dm fuel p).drop 1).dropLast).Perm ((p.drop 1).dropLast)
  | 0, _ => ⟨.refl _, rfl, rfl, .refl _⟩
  | fuel + 1, p => by
    unfold twoOptLoop
    cases hstep : firstImprove dm p with
    | none => exact ⟨.refl _, rfl, rfl, .refl _⟩
    | some p' =>
      obtain ⟨perm1, h1, l1, t1, _⟩ := step_structure dm p p' hstep
      obtain ⟨perm2, h2, l2, t2⟩ := twoOptLoop_structure dm fuel p'
      exact ⟨perm2.trans perm1, h2.trans h1, l2.trans l1, t2.trans t1⟩

/-- Reassembling a list of length at least two from its head, interior and
last element. -/
theorem eq_head_middle_last (l : List ℕ) (h : 2 ≤ l.length) :
    l = l.headD 0 :: ((l.drop 1).dropLast ++ [l.getLast?.getD 0]) := by
  cases l with
  | nil => simp at h
  | cons a t =>
    simp only [List.headD_cons, List.drop_one, List.tail_cons]
    have ht : t ≠ [] := by
      intro e
      subst e
      simp at h
    have h2 : (a :: t).getLast?.getD 0 = t.getLast ht := by
      rw [List.getLast?_eq_getLast _ (List.cons_ne_nil a t)]
      simp [List.getLast_cons ht]
    rw [h2]
    conv_lhs => rw [← List.dropLast_append_getLast ht]

/-- The interior of the full 2-opt path of a tour is the shifted tour. -/
theorem trimmed_initPath (tour : List ℕ) :
    (((0 :: tour.map (· + 1) ++ [0]).drop 1).dropLast) = tour.map (· + 1) := by
  simp

/-- The refiner `_two_opt` returns a permutation of its input tour, for every matrix and
every amount of fuel. -/
theorem two_opt_perm (dm : ℕ → ℕ → ℚ) (fuel : ℕ) (tour : List ℕ) :
    (RouteOptimizer.two_opt dm fuel tour).Perm tour := by
  unfold RouteOptimizer.two_opt
  obtain ⟨-, -, -, htrim⟩ := twoOptLoop_structure dm fuel (0 :: tour.map (· + 1) ++ [0])
  rw [trimmed_initPath] at htrim
  have := htrim.map (· - 1)
  rw [List.map_map] at this
  have hid : tour.map ((· - 1) ∘ (· + 1)) = tour := by
    have hcong : ∀ x ∈ tour, ((· - 1) ∘ (· + 1)) x = id x := by
      intro x _
      simp
    rw [List.map_congr_left hcong, List.map_id]
  rwa [hid] at this

/-- Every element of the interior of the refined path is a shifted index,
hence positive. -/
theorem trimmed_loop_pos (dm : ℕ → ℕ → ℚ) (fuel : ℕ) (tour : List ℕ) :
    ∀ x ∈ ((twoOptLoop dm fuel (0 :: tour.map (· + 1) ++ [0])).drop 1).dropLast, 1 ≤ x := by
  obtain ⟨-, -, -, htrim⟩ := twoOptLoop_structure dm fuel (0 :: tour.map (· + 1) ++ [0])
  rw [trimmed_initPath] at htrim
  intro x hx
  have : x ∈ tour.map (· + 1) := htrim.mem_iff.mp hx
  obtain ⟨y, -, rfl⟩ := List.mem_map.mp this
  omega

/-- The closed cost of the refined tour is the cost of the refined path. -/
theorem two_opt_closedCost (dm : ℕ → ℕ → ℚ) (fuel : ℕ) (tour : List ℕ) :
    closedTourCost dm (RouteOptimizer.two_opt dm fuel tour) =
      pathCost dm (twoOptLoop dm fuel (0 :: tour.map (· + 1) ++ [0])) := by
  have hpos := trimmed_loop_pos dm fuel tour
  obtain ⟨hperm, hhead, hlast, -⟩ := twoOptLoop_structure dm fuel (0 :: tour.map (· + 1) ++ [0])
  simp only [RouteOptimizer.two_opt]
  generalize hq : twoOptLoop dm fuel (0 :: tour.map (· + 1) ++ [0]) = q at hpos hperm hhead hlast ⊢
  have hlen : 2 ≤ q.length := by
    rw [hperm.length_eq]
    simp
  have hh : q.headD 0 = 0 := by
    rw [List.headD_eq_head?, hhead]
    rfl
  have hl : q.getLast?.getD 0 = 0 := by
    rw [hlast]
    have e : (0 :: tour.map (· + 1) ++ [0]).getLast? = some 0 :=
      List.getLast?_append_of_ne_nil _ (by simp)
    rw [e]
    rfl
  have hmapid : (((q.drop 1).dropLast).map (· - 1)).map (· + 1) = (q.drop 1).dropLast := by
    rw [List.map_map]
    have hcong : ∀ x ∈ (q.drop 1).dropLast, ((· + 1) ∘ (· - 1)) x = id x := by
      intro x hx
      have := hpos x hx
      simp only [Function.comp_apply, id_eq]
      omega
    rw [List.map_congr_left hcong, List.map_id]
  rw [closedTourCost, hmapid]
  have hrec : q = 0 :: ((q.drop 1).dropLast ++ [0]) := by
    conv_lhs => rw [eq_head_middle_last q hlen]
    rw [hh, hl]
  conv_rhs => rw [hrec]
  rfl

/-- Entries of a rationals-matrix-by-lists are non-negative as soon as all
listed entries are (out-of-range entries default to zero). -/
theorem matrix_getD_nonneg (rows : List (List ℚ))
    (h : ∀ row ∈ rows, ∀ x ∈ row, 0 ≤ x) (i j : ℕ) :
    0 ≤ (rows.getD i []).getD j 0 := by
  have hrow : ∀ x ∈ rows.getD i [], 0 ≤ x := by
    rcases lt_or_ge i rows.length with hi | hi
    · rw [List.getD_eq_getElem _ _ hi]
      exact h _ (List.getElem_mem hi)
    · rw [List.getD_eq_default _ _ hi]
      intro x hx
      simp at hx
  rcases lt_or_ge j (rows.getD i []).length with hj | hj
  · rw [List.getD_eq_getElem _ _ hj]
    exact hrow _ (List.getElem_mem hj)
  · rw [List.getD_eq_default _ _ hj]

/-- An asymmetric distance matrix on which the first-improvement 2-opt
refiner makes the tour strictly worse: the acceptance test compares only the
two boundary edges, but reversing the segment also reverses its interior
edges, whose reversed directions here are far more expensive. -/
def D2mat : ℕ → ℕ → ℚ := fun i j =>
  (([[0, 1, 50, 0], [0, 0, 0, 50], [50, 100, 0, 0], [1, 60, 100, 0]] :
    List (List ℚ)).getD i []).getD j 0

set_option maxHeartbeats 2000000 in
/-- Claim C2 counterexample: on the non-negative (asymmetric) matrix `D2mat`,
the 2-opt refiner turns the tour `[0, 1, 2]` (closed cost 2) into the tour
`[2, 1, 0]` (closed cost 200) and then stops — the scan at the returned tour
finds no further move, so this is the refiner's converged output — so the
refined tour's closed-path cost strictly exceeds the input tour's. -/
theorem c2_two_opt_increases_cost_counterexample :
    (∀ i j, 0 ≤ D2mat i j) ∧
    RouteOptimizer.two_opt D2mat 2 [0, 1, 2] = [2, 1, 0] ∧
    firstImprove D2mat (0 :: [2, 1, 0].map (· + 1) ++ [0]) = none ∧
    closedTourCost D2mat [0, 1, 2] = 2 ∧
    closedTourCost D2mat [2, 1, 0] = 200 ∧
    ¬ closedTourCost D2mat (RouteOptimizer.two_opt D2mat 2 [0, 1, 2]) ≤
        closedTourCost D2mat [0, 1, 2] := by
  refine ⟨matrix_getD_nonneg _ (by norm_num), ?_, ?_, ?_, ?_, ?_⟩
  · norm_num [RouteOptimizer.two_opt, twoOptLoop, firstImprove, improveAt, reverseSegment,
      D2mat, List.range']
  · norm_num [firstImprove, improveAt, reverseSegment, D2mat, List.range']
  · norm_num [closedTourCost, pathCost, D2mat]
  · norm_num [closedTourCost, pathCost, D2mat]
  · have h1 : RouteOptimizer.two_opt D2mat 2 [0, 1, 2] = [2, 1, 0] := by
      norm_num [RouteOptimizer.two_opt, twoOptLoop, firstImprove, improveAt, reverseSegment,
        D2mat, List.range']
    rw [h1]
    have h2 : closedTourCost D2mat [0, 1, 2] = 2 := by
      norm_num [closedTourCost, pathCost, D2mat]
    have h3 : closedTourCost D2mat [2, 1, 0] = 200 := by
      norm_num [closedTourCost, pathCost, D2mat]
    rw [h2, h3]
    norm_num

/-- Claim C2 (amended): over a symmetric distance matrix with non-negative
entries, the tour returned by the 2-opt refiner — at any fuel, hence in
particular at convergence — has closed-path cost (depot, the tour's stops in
order, depot) at most that of the input tour.  (The unrestricted claim fails
on asymmetric matrices, which the spec's data model allows.) -/
theorem c2_two_opt_no_worse_symmetric (dm : ℕ → ℕ → ℚ) (tour : List ℕ) (fuel : ℕ)
    (_hnn : ∀ i j, 0 ≤ dm i j) (hsym : SymmetricMatrix dm) :
    closedTourCost dm (RouteOptimizer.two_opt dm fuel tour) ≤ closedTourCost dm tour := by
  rw [two_opt_closedCost]
  exact twoOptLoop_cost_le dm hsym fuel _

/-- Witness for the amended C2 at a concrete symmetric matrix and tour. -/
theorem c2_two_opt_no_worse_symmetric_witness :
    closedTourCost (fun _ _ => 0) (RouteOptimizer.two_opt (fun _ _ => 0) 3 [0, 1]) ≤
      closedTourCost (fun _ _ => 0) [0, 1] :=
  c2_two_opt_no_worse_symmetric (fun _ _ => 0) [0, 1] 3
    (fun _ _ => le_refl 0) (fun _ _ => rfl)

/-- The number of strictly cheaper sibling permutations of the starting
path: the decreasing measure of the 2-opt loop over a symmetric matrix. -/
def cheaperCount (dm : ℕ → ℕ → ℚ) (p₀ p : List ℕ) : ℕ :=
  Multiset.card ((p₀.permutations : Multiset (List ℕ)).filter
    (fun q => pathCost dm q < pathCost dm p))

/-- Over a symmetric matrix, every accepted 2-opt step strictly decreases the
cheaper-permutation count. -/
theorem cheaperCount_step_lt (dm : ℕ → ℕ → ℚ) (hsym : SymmetricMatrix dm)
    (p₀ p p' : List ℕ) (hperm : p.Perm p₀) (h : firstImprove dm p = some p') :
    cheaperCount dm p₀ p' < cheaperCount dm p₀ p := by
  have hlt := step_cost_lt dm hsym p p' h
  have hp' : p'.Perm p₀ := ((step_structure dm p p' h).1).trans hperm
  apply Multiset.card_lt_card
  apply lt_of_le_of_ne
  · exact Multiset.monotone_filter_right _ (fun q hq => lt_trans hq hlt)
  · intro heq
    have hmem : p' ∈ (p₀.permutations : Multiset (List ℕ)).filter
        (fun q => pathCost dm q < pathCost dm p) := by
      rw [Multiset.mem_filter]
      constructor
      · rw [Multiset.mem_coe]
        exact List.mem_permutations.mpr hp'
      · exact hlt
    rw [← heq, Multiset.mem_filter] at hmem
    exact absurd hmem.2 (lt_irrefl _)

/-- Over a symmetric matrix the 2-opt loop reaches, within some fuel, a path
on which a full scan finds no improving pair. -/
theorem twoOptLoop_converges_aux (dm : ℕ → ℕ → ℚ) (hsym : SymmetricMatrix dm)
    (p₀ : List ℕ) :
    ∀ (k : ℕ) (p : List ℕ), p.Perm p₀ → cheaperCount dm p₀ p ≤ k →
      ∃ fuel, firstImprove dm (twoOptLoop dm fuel p) = none := by
  intro k
  induction k with
  | zero =>
    intro p hperm hk
    cases hstep : firstImprove dm p with
    | none => exact ⟨0, hstep⟩
    | some p' =>
      have := cheaperCount_step_lt dm hsym p₀ p p' hperm hstep
      omega
  | succ k ih =>
    intro p hperm hk
    cases hstep : firstImprove dm p with
    | none => exact ⟨0, hstep⟩
    | some p' =>
      have hlt := cheaperCount_step_lt dm hsym p₀ p p' hperm hstep
      have hp' : p'.Perm p₀ := ((step_structure dm p p' hstep).1).trans hperm
      obtain ⟨fuel, hf⟩ := ih p' hp' (by omega)
      refine ⟨fuel + 1, ?_⟩
      simp only [twoOptLoop, hstep]
      exact hf

/-- Once the scan finds no improving pair, more fuel changes nothing. -/
theorem twoOptLoop_fix (dm : ℕ → ℕ → ℚ) (p : List ℕ)
    (h : firstImprove dm p = none) : ∀ fuel, twoOptLoop dm fuel p = p
  | 0 => rfl
  | fuel + 1 => by simp only [twoOptLoop, h]

/-- Splitting the fuel of the 2-opt loop. -/
theorem twoOptLoop_add (dm : ℕ → ℕ → ℚ) :
    ∀ (f g : ℕ) (p : List ℕ),
      twoOptLoop dm (f + g) p = twoOptLoop dm g (twoOptLoop dm f p)
  | 0, g, p => by rw [Nat.zero_add]; rfl
  | f + 1, g, p => by
    have hshift : f + 1 + g = (f + g) + 1 := by omega
    rw [hshift]
    cases hstep : firstImprove dm p with
    | none =>
      simp only [twoOptLoop, hstep]
      rw [twoOptLoop_fix dm p hstep]
    | some p' =>
      simp only [twoOptLoop, hstep]
      exact twoOptLoop_add dm f g p'

/-- Claim C10 (amended): over a symmetric distance matrix with non-negative
entries the 2-opt refiner terminates on every finite input tour: some fuel
reaches a full scan with no improving pair (each accepted reversal strictly
decreases the closed-path cost there, and only finitely many permutations of
the path exist), and every larger fuel returns the same refined tour.  (On
asymmetric matrices, which the data model allows, the loop can cycle
forever.) -/
theorem c10_two_opt_terminates_symmetric (dm : ℕ → ℕ → ℚ) (tour : List ℕ)
    (_hnn : ∀ i j, 0 ≤ dm i j) (hsym : SymmetricMatrix dm) :
    ∃ fuel, firstImprove dm (twoOptLoop dm fuel (0 :: tour.map (· + 1) ++ [0])) = none ∧
      ∀ extra, RouteOptimizer.two_opt dm (fuel + extra) tour =
        RouteOptimizer.two_opt dm fuel tour := by
  obtain ⟨fuel, hf⟩ := twoOptLoop_converges_aux dm hsym (0 :: tour.map (· + 1) ++ [0])
    (cheaperCount dm (0 :: tour.map (· + 1) ++ [0]) (0 :: tour.map (· + 1) ++ [0]))
    (0 :: tour.map (· + 1) ++ [0]) (List.Perm.refl _) (le_refl _)
  refine ⟨fuel, hf, ?_⟩
  intro extra
  simp only [RouteOptimizer.two_opt]
  rw [twoOptLoop_add, twoOptLoop_fix dm _ hf]

/-- Witness for the amended C10 at a concrete symmetric matrix and tour. -/
theorem c10_two_opt_terminates_symmetric_witness :
    ∃ fuel, firstImprove (fun _ _ => 0) (twoOptLoop (fun _ _ => 0) fuel
        (0 :: [0, 1].map (· + 1) ++ [0])) = none ∧
      ∀ extra, RouteOptimizer.two_opt (fun _ _ => 0) (fuel + extra) [0, 1] =
        RouteOptimizer.two_opt (fun _ _ => 0) fuel [0, 1] :=
  c10_two_opt_terminates_symmetric (fun _ _ => 0) [0, 1]
    (fun _ _ => le_refl 0) (fun _ _ => rfl)

/-- A non-negative (asymmetric) distance matrix on which the first-improvement
2-opt scan cycles forever from a suitable start tour. -/
def D10 : ℕ → ℕ → ℚ := fun i j =>
  (([[0, 5, 7, 8, 8], [0, 0, 2, 4, 8], [4, 5, 0, 9, 3], [6, 8, 6, 0, 2], [7, 4, 9, 5, 0]] :
    List (List ℚ)).getD i []).getD j 0

/-- The paths visited by the 2-opt scan on `D10` from the tour
`[0, 1, 3, 2]`: after one step the scan enters a cycle of length four. -/
def cyclePaths : List (List ℕ) :=
  [[0, 1, 2, 4, 3, 0], [0, 3, 4, 2, 1, 0], [0, 4, 3, 2, 1, 0],
   [0, 2, 3, 4, 1, 0], [0, 2, 4, 3, 1, 0]]

set_option maxHeartbeats 1000000 in
/-- First accepted move from the start path. -/
theorem cycle_step1 : firstImprove D10 [0, 1, 2, 4, 3, 0] = some [0, 3, 4, 2, 1, 0] := by
  norm_num [firstImprove, improveAt, reverseSegment, D10, List.range']

set_option maxHeartbeats 1000000 in
/-- Second accepted move. -/
theorem cycle_step2 : firstImprove D10 [0, 3, 4, 2, 1, 0] = some [0, 4, 3, 2, 1, 0] := by
  norm_num [firstImprove, improveAt, reverseSegment, D10, List.range']

set_option maxHeartbeats 1000000 in
/-- Third accepted move. -/
theorem cycle_step3 : firstImprove D10 [0, 4, 3, 2, 1, 0] = some [0, 2, 3, 4, 1, 0] := by
  norm_num [firstImprove, improveAt, reverseSegment, D10, List.range']

set_option maxHeartbeats 1000000 in
/-- Fourth accepted move. -/
theorem cycle_step4 : firstImprove D10 [0, 2, 3, 4, 1, 0] = some [0, 2, 4, 3, 1, 0] := by
  norm_num [firstImprove, improveAt, reverseSegment, D10, List.range']

set_option maxHeartbeats 1000000 in
/-- Fifth accepted move, closing the cycle of length four. -/
theorem cycle_step5 : firstImprove D10 [0, 2, 4, 3, 1, 0] = some [0, 3, 4, 2, 1, 0] := by
  norm_num [firstImprove, improveAt, reverseSegment, D10, List.range']

/-- Whatever its fuel, the 2-opt loop on `D10` stays inside the cycle set. -/
theorem cycle_closed : ∀ (fuel : ℕ) (p : List ℕ), p ∈ cyclePaths →
    twoOptLoop D10 fuel p ∈ cyclePaths := by
  intro fuel
  induction fuel with
  | zero => intro p hp; exact hp
  | succ f ih =>
    intro p hp
    simp only [cyclePaths, List.mem_cons, List.not_mem_nil, or_false] at hp
    rcases hp with rfl | rfl | rfl | rfl | rfl
    · simp only [twoOptLoop, cycle_step1]
      exact ih _ (by decide)
    · simp only [twoOptLoop, cycle_step2]
      exact ih _ (by decide)
    · simp only [twoOptLoop, cycle_step3]
      exact ih _ (by decide)
    · simp only [twoOptLoop, cycle_step4]
      exact ih _ (by decide)
    · simp only [twoOptLoop, cycle_step5]
      exact ih _ (by decide)

/-- Claim C10 counterexample: on the non-negative matrix `D10` and the input
tour `[0, 1, 3, 2]` the 2-opt refiner does not terminate — no amount of fuel
makes the scan reach a pass with no improving pair, because the
first-improvement dynamics enters a four-cycle of accepted reversals. -/
theorem c10_two_opt_nontermination_counterexample :
    (∀ i j, 0 ≤ D10 i j) ∧
    ¬ ∃ fuel, firstImprove D10
        (twoOptLoop D10 fuel (0 :: [0, 1, 3, 2].map (· + 1) ++ [0])) = none := by
  constructor
  · exact matrix_getD_nonneg _ (by norm_num)
  · rintro ⟨fuel, hf⟩
    have hpath : (0 :: [0, 1, 3, 2].map (· + 1) ++ [0]) = [0, 1, 2, 4, 3, 0] := by
      simp
    rw [hpath] at hf
    have hmem : twoOptLoop D10 fuel [0, 1, 2, 4, 3, 0] ∈ cyclePaths :=
      cycle_closed fuel _ (by decide)
    simp only [cyclePaths, List.mem_cons, List.not_mem_nil, or_false] at hmem
    rcases hmem with h | h | h | h | h
    · rw [h, cycle_step1] at hf
      exact Option.noConfusion hf
    · rw [h, cycle_step2] at hf
      exact Option.noConfusion hf
    · rw [h, cycle_step3] at hf
      exact Option.noConfusion hf
    · rw [h, cycle_step4] at hf
      exact Option.noConfusion hf
    · rw [h, cycle_step5] at hf
      exact Option.noConfusion hf

/-- Positivity is preserved by adding a non-negative amount at one entry. -/
theorem addPheromone_pos (p : ℕ → ℕ → ℚ) (e : ℕ × ℕ) (amount : ℚ)
    (hp : ∀ i j, 0 < p i j) (ha : 0 ≤ amount) :
    ∀ i j, 0 < addPheromone p e amount i j := by
  intro i j
  unfold addPheromone
  by_cases h : i = e.1 ∧ j = e.2
  · rw [if_pos h]
    linarith [hp i j]
  · rw [if_neg h]
    exact hp i j

/-- Positivity is preserved by depositing a non-negative amount along a tour. -/
theorem depositAlong_pos (tour : List ℕ) (amount : ℚ) (ha : 0 ≤ amount) :
    ∀ (p : ℕ → ℕ → ℚ), (∀ i j, 0 < p i j) →
      ∀ i j, 0 < depositAlong p tour amount i j := by
  unfold depositAlong
  generalize tourEdges tour = edges
  induction edges with
  | nil => intro p hp; exact hp
  | cons e rest ih =>
    intro p hp
    simp only [List.foldl_cons]
    exact ih _ (addPheromone_pos p e amount hp ha)

/-- One evaporation-plus-deposit cycle keeps every entry strictly positive:
evaporation multiplies by the positive factor `1 - ACO_RHO = 0.9`, and both
deposits (made only when the corresponding tour distance is positive) add the
positive amounts `ACO_Q / distance` and `ACO_ELITE_WEIGHT * ACO_Q / distance`. -/
theorem update_pheromones_pos (p : ℕ → ℕ → ℚ) (all_tours : List (List ℕ × ℚ))
    (best : List ℕ × ℚ) (global : Option (List ℕ × ℚ)) (hp : ∀ i j, 0 < p i j) :
    ∀ i j, 0 < RouteOptimizer.update_pheromones p all_tours best global i j := by
  have hev : ∀ a b, 0 < (1 - ACO_RHO) * p a b := by
    intro a b
    have h := hp a b
    rw [ACO_RHO]
    nlinarith
  have hafter : ∀ a b, 0 <
      (if best.2 > 0 then
        depositAlong (fun i j => (1 - ACO_RHO) * p i j) best.1 (ACO_Q / best.2)
       else fun i j => (1 - ACO_RHO) * p i j) a b := by
    by_cases hb : best.2 > 0
    · rw [if_pos hb]
      exact depositAlong_pos best.1 _
        (le_of_lt (div_pos (by rw [ACO_Q]; norm_num) hb)) _ hev
    · rw [if_neg hb]
      exact hev
  intro i j
  cases global with
  | none =>
    simp only [RouteOptimizer.update_pheromones]
    exact hafter i j
  | some gb =>
    simp only [RouteOptimizer.update_pheromones]
    by_cases hg : gb.2 > 0
    · rw [if_pos hg]
      refine depositAlong_pos gb.1 _ ?_ _ hafter i j
      have hq : (0:ℚ) < ACO_ELITE_WEIGHT * ACO_Q := by
        rw [ACO_ELITE_WEIGHT, ACO_Q]
        norm_num
      exact le_of_lt (div_pos hq hg)
    · rw [if_neg hg]
      exact hafter i j

/-- Claim C6: every entry of the pheromone field is strictly positive at
every point of a run — it starts at the positive constant
`ACO_INITIAL_PHEROMONE = 0.01` and stays strictly positive after any number
of evaporation-plus-deposit cycles, whatever tours and distances each cycle
is fed. -/
theorem c6_pheromones_stay_positive (n : ℕ)
    (updates : List (List (List ℕ × ℚ) × (List ℕ × ℚ) × Option (List ℕ × ℚ)))
    (i j : ℕ) :
    0 < (updates.foldl
        (fun p u => RouteOptimizer.update_pheromones p u.1 u.2.1 u.2.2)
        (RouteOptimizer.initialize_pheromones n)) i j := by
  have hgen : ∀ (p : ℕ → ℕ → ℚ), (∀ a b, 0 < p a b) →
      ∀ a b, 0 < (updates.foldl
        (fun p u => RouteOptimizer.update_pheromones p u.1 u.2.1 u.2.2) p) a b := by
    induction updates with
    | nil => intro p hp; exact hp
    | cons u rest ih =>
      intro p hp
      simp only [List.foldl_cons]
      exact ih _ (update_pheromones_pos p u.1 u.2.1 u.2.2 hp)
  refine hgen _ ?_ i j
  intro a b
  rw [RouteOptimizer.initialize_pheromones, ACO_INITIAL_PHEROMONE]
  norm_num

/-- Elementwise division distributes over a list sum. -/
theorem list_sum_map_div (l : List ℚ) (c : ℚ) :
    (l.map (fun x => x / c)).sum = l.sum / c := by
  induction l with
  | nil => simp
  | cons a t ih => simp [ih, add_div]

/-- Selection weights are non-negative whenever the pheromones are. -/
theorem selectionWeight_nonneg (pher dist : ℕ → ℕ → ℚ) (hp : ∀ i j, 0 ≤ pher i j)
    (c k : ℕ) : 0 ≤ selectionWeight pher dist c k := by
  unfold selectionWeight
  apply mul_nonneg
  · exact pow_nonneg (hp c k) _
  · by_cases h : dist c k > 0
    · rw [if_pos h]
      positivity
    · rw [if_neg h]

/-- Claim C9: for every current index and non-empty unvisited candidate set
(with non-negative distances and pheromones, as in a run), the selection
weight of candidate `k` is `pheromone^α * (1/distance)^β` with the heuristic
term zero when the distance is zero; the weights are normalized into a
probability distribution over the candidates (it sums to one), and when all
weights are zero the distribution is uniform. -/
theorem c9_selection_distribution (pher dist : ℕ → ℕ → ℚ) (current : ℕ)
    (unvisited : List ℕ) (hd : ∀ i j, 0 ≤ dist i j) (hp : ∀ i j, 0 ≤ pher i j)
    (hne : unvisited ≠ []) :
    (∀ k ∈ unvisited, selectionWeight pher dist current k =
        pher current k ^ ACO_ALPHA *
          (if dist current k = 0 then 0 else (1 / dist current k) ^ ACO_BETA)) ∧
    ((unvisited.map (selectionWeight pher dist current)).sum ≠ 0 →
        selectionProbs pher dist current unvisited =
          (unvisited.map (selectionWeight pher dist current)).map
            (fun w => w / (unvisited.map (selectionWeight pher dist current)).sum)) ∧
    ((∀ k ∈ unvisited, selectionWeight pher dist current k = 0) →
        selectionProbs pher dist current unvisited =
          List.replicate unvisited.length (1 / (unvisited.length : ℚ))) ∧
    (selectionProbs pher dist current unvisited).sum = 1 := by
  have hwnn : ∀ w ∈ unvisited.map (selectionWeight pher dist current), 0 ≤ w := by
    intro w hw
    obtain ⟨k, -, rfl⟩ := List.mem_map.mp hw
    exact selectionWeight_nonneg pher dist hp current k
  have hsum_nn : 0 ≤ (unvisited.map (selectionWeight pher dist current)).sum :=
    List.sum_nonneg hwnn
  refine ⟨?_, ?_, ?_, ?_⟩
  · intro k _
    unfold selectionWeight
    by_cases h : dist current k = 0
    · rw [if_neg (by rw [h]; exact lt_irrefl 0), if_pos h]
    · rw [if_pos (lt_of_le_of_ne (hd current k) (Ne.symm h)), if_neg h]
  · intro hne0
    unfold selectionProbs
    rw [if_pos (lt_of_le_of_ne hsum_nn (Ne.symm hne0))]
  · intro hzero
    unfold selectionProbs
    rw [if_neg ?_]
    rw [List.sum_eq_zero]
    · exact lt_irrefl 0
    · intro w hw
      obtain ⟨k, hk, rfl⟩ := List.mem_map.mp hw
      exact hzero k hk
  · unfold selectionProbs
    by_cases htot : (unvisited.map (selectionWeight pher dist current)).sum > 0
    · rw [if_pos htot, list_sum_map_div]
      exact div_self (ne_of_gt htot)
    · rw [if_neg htot, List.sum_replicate, nsmul_eq_mul]
      have hlen : (unvisited.length : ℚ) ≠ 0 := by
        have := List.length_pos.mpr hne
        exact_mod_cast Nat.pos_iff_ne_zero.mp this
      field_simp

/-- Witness for C9 at a concrete pheromone field, matrix and candidate set. -/
theorem c9_selection_distribution_witness :
    (∀ k ∈ [1], selectionWeight (fun _ _ => 0) (fun _ _ => 0) 0 k =
        (fun _ _ => (0:ℚ)) 0 k ^ ACO_ALPHA *
          (if (fun _ _ => (0:ℚ)) 0 k = 0 then 0
           else (1 / (fun _ _ => (0:ℚ)) 0 k) ^ ACO_BETA)) ∧
    (([1].map (selectionWeight (fun _ _ => 0) (fun _ _ => 0) 0)).sum ≠ 0 →
        selectionProbs (fun _ _ => 0) (fun _ _ => 0) 0 [1] =
          ([1].map (selectionWeight (fun _ _ => 0) (fun _ _ => 0) 0)).map
            (fun w => w / ([1].map (selectionWeight (fun _ _ => 0) (fun _ _ => 0) 0)).sum)) ∧
    ((∀ k ∈ [1], selectionWeight (fun _ _ => 0) (fun _ _ => 0) 0 k = 0) →
        selectionProbs (fun _ _ => 0) (fun _ _ => 0) 0 [1] =
          List.replicate ([1] : List ℕ).length (1 / (([1] : List ℕ).length : ℚ))) ∧
    (selectionProbs (fun _ _ => 0) (fun _ _ => 0) 0 [1]).sum = 1 :=
  c9_selection_distribution (fun _ _ => 0) (fun _ _ => 0) 0 [1]
    (fun _ _ => le_refl 0) (fun _ _ => le_refl 0) (by simp)

/-- With a valid picker, the construction loop's tour is (after the `- 1`
shift) a permutation of the unvisited index list — the loop removes each drawn
index and the draw always lands in the list. -/
theorem construct_ant_loop_perm (pick : Pick) (hpick : ValidPick pick)
    (pher dist : ℕ → ℕ → ℚ) :
    ∀ (fuel : ℕ) (cur : ℕ) (unvisited : List ℕ) (ctr : ℕ),
      unvisited.length = fuel →
      (RouteOptimizer.construct_ant_loop pick pher dist fuel cur unvisited ctr).1.Perm
        (unvisited.map (· - 1))
  | 0, cur, unvisited, ctr, hlen => by
    have h0 : unvisited = [] := List.length_eq_zero.mp hlen
    subst h0
    simp [RouteOptimizer.construct_ant_loop]
  | fuel + 1, cur, unvisited, ctr, hlen => by
    cases unvisited with
    | nil => simp at hlen
    | cons u rest =>
      simp only [RouteOptimizer.construct_ant_loop]
      have hmem : RouteOptimizer.select_next_container pick ctr cur (u :: rest) pher dist
          ∈ u :: rest := hpick _ _ _ (List.cons_ne_nil u rest)
      have hlen' : ((u :: rest).erase
          (RouteOptimizer.select_next_container pick ctr cur (u :: rest) pher dist)).length
          = fuel := by
        rw [List.length_erase_of_mem hmem]
        simpa using hlen
      have ih := construct_ant_loop_perm pick hpick pher dist fuel
        (RouteOptimizer.select_next_container pick ctr cur (u :: rest) pher dist)
        ((u :: rest).erase
          (RouteOptimizer.select_next_container pick ctr cur (u :: rest) pher dist))
        (ctr + 1) hlen'
      have hperm0 := (List.perm_cons_erase hmem).map (· - 1)
      exact (ih.cons _).trans hperm0.symm

/-- With a valid picker, every constructed ant tour is a permutation of the
container indices `0 .. n-1`. -/
theorem construct_ant_solution_perm (pick : Pick) (hpick : ValidPick pick)
    (pher dist : ℕ → ℕ → ℚ) (n ctr : ℕ) :
    (RouteOptimizer.construct_ant_solution pick pher dist n ctr).1.Perm (List.range n) := by
  unfold RouteOptimizer.construct_ant_solution
  have h := construct_ant_loop_perm pick hpick pher dist n 0 (List.range' 1 n) ctr (by simp)
  have hmap : (List.range' 1 n).map (· - 1) = List.range n := by
    rw [List.range'_eq_map_range, List.map_map]
    have hcong : ∀ x ∈ List.range n, ((· - 1) ∘ (1 + ·)) x = id x := by
      intro x _
      simp
    rw [List.map_congr_left hcong, List.map_id]
  rwa [hmap] at h

/-- Every `(tour, distance)` pair an ant contributes: the 2-opt-refined tour,
a permutation of the container indices, with its recomputed closed cost. -/
theorem run_ants_spec (pick : Pick) (hpick : ValidPick pick)
    (pher dist : ℕ → ℕ → ℚ) (n fuel : ℕ) :
    ∀ (ants ctr : ℕ) (t : List ℕ × ℚ),
      t ∈ (RouteOptimizer.run_ants pick pher dist n fuel ants ctr).1 →
      t.1.Perm (List.range n) ∧ t.2 = pathCost dist (0 :: t.1.map (· + 1) ++ [0])
  | 0, ctr, t, ht => by simp [RouteOptimizer.run_ants] at ht
  | ants + 1, ctr, t, ht => by
    simp only [RouteOptimizer.run_ants] at ht
    rcases List.mem_cons.mp ht with h | h
    · constructor
      · rw [h]
        exact (two_opt_perm dist fuel _).trans
          (construct_ant_solution_perm pick hpick pher dist n ctr)
      · rw [h]
    · exact run_ants_spec pick hpick pher dist n fuel ants _ t h

/-- The ants loop produces one pair per ant. -/
theorem run_ants_length (pick : Pick) (pher dist : ℕ → ℕ → ℚ) (n fuel : ℕ) :
    ∀ (ants ctr : ℕ), (RouteOptimizer.run_ants pick pher dist n fuel ants ctr).1.length = ants
  | 0, _ => rfl
  | ants + 1, ctr => by
    simp only [RouteOptimizer.run_ants, List.length_cons]
    rw [run_ants_length pick pher dist n fuel ants _]

/-- The iteration-best selection returns a member of its list. -/
theorem minByDistance_mem (tours : List (List ℕ × ℚ)) (b : List ℕ × ℚ)
    (h : minByDistance tours = some b) : b ∈ tours := by
  have haux : ∀ (l : List (List ℕ × ℚ)) (acc : Option (List ℕ × ℚ)) (b' : List ℕ × ℚ),
      l.foldl (fun acc t =>
        match acc with
        | none => some t
        | some b'' => if t.2 < b''.2 then some t else some b'') acc = some b' →
      acc = some b' ∨ b' ∈ l := by
    intro l
    induction l with
    | nil => intro acc b' hb; exact Or.inl hb
    | cons t rest ih =>
      intro acc b' hb
      simp only [List.foldl_cons] at hb
      rcases ih _ _ hb with hacc | hmem
      · cases acc with
        | none =>
          simp only at hacc
          exact Or.inr (by rw [← Option.some_inj.mp hacc]; exact List.mem_cons_self t rest)
        | some a =>
          simp only at hacc
          by_cases hlt : t.2 < a.2
          · rw [if_pos hlt] at hacc
            exact Or.inr (by rw [← Option.some_inj.mp hacc]; exact List.mem_cons_self t rest)
          · rw [if_neg hlt] at hacc
            exact Or.inl (by rw [Option.some_inj.mp hacc])
      · exact Or.inr (List.mem_cons_of_mem t hmem)
  rcases haux tours none b h with hacc | hmem
  · exact absurd hacc (by simp)
  · exact hmem

/-- The iteration-best selection succeeds on a non-empty list. -/
theorem minByDistance_isSome (tours : List (List ℕ × ℚ)) (hne : tours ≠ []) :
    ∃ b, minByDistance tours = some b := by
  have haux : ∀ (l : List (List ℕ × ℚ)) (a : List ℕ × ℚ),
      ∃ b, l.foldl (fun acc t =>
        match acc with
        | none => some t
        | some b'' => if t.2 < b''.2 then some t else some b'') (some a) = some b := by
    intro l
    induction l with
    | nil => intro a; exact ⟨a, rfl⟩
    | cons t rest ih =>
      intro a
      simp only [List.foldl_cons]
      by_cases hlt : t.2 < a.2
      · rw [if_pos hlt]
        exact ih t
      · rw [if_neg hlt]
        exact ih a
  cases tours with
  | nil => exact absurd rfl hne
  | cons t rest =>
    unfold minByDistance
    simp only [List.foldl_cons]
    exact haux rest t

/-- The property every winning tour carries: it is a permutation of the
container indices and its stored distance is its recomputed closed cost. -/
def GoodTour (dist : ℕ → ℕ → ℚ) (n : ℕ) (t : List ℕ × ℚ) : Prop :=
  t.1.Perm (List.range n) ∧ t.2 = pathCost dist (0 :: t.1.map (· + 1) ++ [0])

/-- Whatever the colony returns was contributed by some ant: the global best
is a good tour whenever the incoming global best is. -/
theorem aco_iterations_spec (pick : Pick) (hpick : ValidPick pick)
    (dist : ℕ → ℕ → ℚ) (n fuel numAnts : ℕ) :
    ∀ (iters : ℕ) (pher : ℕ → ℕ → ℚ) (global : Option (List ℕ × ℚ)) (ctr : ℕ)
      (g : List ℕ × ℚ),
      (∀ g₀, global = some g₀ → GoodTour dist n g₀) →
      RouteOptimizer.aco_iterations pick dist n fuel numAnts iters pher global ctr = some g →
      GoodTour dist n g
  | 0, pher, global, ctr, g, hglob, hres => hglob g hres
  | iters + 1, pher, global, ctr, g, hglob, hres => by
    simp only [RouteOptimizer.aco_iterations] at hres
    cases hmin : minByDistance
        (RouteOptimizer.run_ants pick pher dist n fuel numAnts ctr).1 with
    | none =>
      rw [hmin] at hres
      exact aco_iterations_spec pick hpick dist n fuel numAnts iters _ _ _ g hglob hres
    | some best =>
      rw [hmin] at hres
      have hbest : GoodTour dist n best := by
        have hb := minByDistance_mem _ _ hmin
        obtain ⟨h1, h2⟩ := run_ants_spec pick hpick pher dist n fuel numAnts ctr best hb
        exact ⟨h1, h2⟩
      refine aco_iterations_spec pick hpick dist n fuel numAnts iters _ _ _ g ?_ hres
      intro g₀ hg₀
      cases global with
      | none =>
        simp only at hg₀
        rw [← Option.some_inj.mp hg₀]
        exact hbest
      | some gprev =>
        simp only at hg₀
        by_cases hlt : best.2 < gprev.2
        · rw [if_pos hlt] at hg₀
          rw [← Option.some_inj.mp hg₀]
          exact hbest
        · rw [if_neg hlt] at hg₀
          rw [← Option.some_inj.mp hg₀]
          exact hglob gprev rfl

/-- Once a global best exists it never disappears. -/
theorem aco_iterations_some (pick : Pick) (dist : ℕ → ℕ → ℚ) (n fuel numAnts : ℕ) :
    ∀ (iters : ℕ) (pher : ℕ → ℕ → ℚ) (g₀ : List ℕ × ℚ) (ctr : ℕ),
      ∃ g, RouteOptimizer.aco_iterations pick dist n fuel numAnts iters pher (some g₀) ctr
        = some g
  | 0, pher, g₀, ctr => ⟨g₀, rfl⟩
  | iters + 1, pher, g₀, ctr => by
    simp only [RouteOptimizer.aco_iterations]
    cases hmin : minByDistance
        (RouteOptimizer.run_ants pick pher dist n fuel numAnts ctr).1 with
    | none => exact aco_iterations_some pick dist n fuel numAnts iters _ g₀ _
    | some best =>
      dsimp only
      by_cases hlt : best.2 < g₀.2
      · rw [if_pos hlt]
        exact aco_iterations_some pick dist n fuel numAnts iters _ best _
      · rw [if_neg hlt]
        exact aco_iterations_some pick dist n fuel numAnts iters _ g₀ _

/-- With at least one ant and one iteration, the colony returns a global
best. -/
theorem aco_iterations_ne_none (pick : Pick) (dist : ℕ → ℕ → ℚ)
    (n fuel numAnts : ℕ) (hA : 1 ≤ numAnts) (iters : ℕ) (hI : 1 ≤ iters)
    (pher : ℕ → ℕ → ℚ) (ctr : ℕ) :
    ∃ g, RouteOptimizer.aco_iterations pick dist n fuel numAnts iters pher none ctr
      = some g := by
  cases iters with
  | zero => omega
  | succ iters =>
    simp only [RouteOptimizer.aco_iterations]
    have hlen : (RouteOptimizer.run_ants pick pher dist n fuel numAnts ctr).1 ≠ [] := by
      intro he
      have := run_ants_length pick pher dist n fuel numAnts ctr
      rw [he] at this
      simp at this
      omega
    obtain ⟨best, hmin⟩ := minByDistance_isSome _ hlen
    rw [hmin]
    exact aco_iterations_some pick dist n fuel numAnts iters _ best _

/-- The stops of `_create_aco_route`: an assembly of some winning tour, which
is a permutation of the container indices. -/
theorem create_aco_route_spec (world : World) (hv : Loc → Loc → ℚ) (pick : Pick)
    (hpick : ValidPick pick) (numAnts numIters fuel : ℕ)
    (hA : 1 ≤ numAnts) (hI : 1 ≤ numIters) (depot : Loc)
    (containers : List Container) (hne : containers ≠ []) :
    ∃ tour, tour.Perm (List.range containers.length) ∧
      RouteOptimizer.create_aco_route world hv pick numAnts numIters fuel depot containers =
        RouteOptimizer.assemble_stops
          (RouteOptimizer.build_distance_matrix world hv depot containers).1
          (RouteOptimizer.build_distance_matrix world hv depot containers).2
          containers tour 0 1 0 := by
  obtain ⟨g, hg⟩ := aco_iterations_ne_none pick
    (RouteOptimizer.build_distance_matrix world hv depot containers).1
    containers.length fuel numAnts hA numIters hI
    (RouteOptimizer.initialize_pheromones (containers.length + 1)) 0
  have hgood : GoodTour (RouteOptimizer.build_distance_matrix world hv depot containers).1
      containers.length g :=
    aco_iterations_spec pick hpick _ containers.length fuel numAnts numIters _ none 0 g
      (by intro g₀ h; exact absurd h (by simp)) hg
  refine ⟨g.1, hgood.1, ?_⟩
  unfold RouteOptimizer.create_aco_route
  rw [if_neg hne]
  simp only [hg]

/-- The assembled stops carry consecutive 1-based order ranks (more
generally, consecutive ranks from the starting rank). -/
theorem assemble_stops_orders (dm : ℕ → ℕ → ℚ) (cache : ℕ × ℕ → Option (Option Geometry))
    (containers : List Container) :
    ∀ (t : List ℕ) (prev ord : ℕ) (cum : ℚ),
      (RouteOptimizer.assemble_stops dm cache containers t prev ord cum).map
          (fun s => s.order) = List.range' ord t.length
  | [], _, _, _ => rfl
  | c :: rest, prev, ord, cum => by
    simp only [RouteOptimizer.assemble_stops, List.map_cons, List.length_cons]
    rw [assemble_stops_orders dm cache containers rest (c + 1) (ord + 1) _,
      List.range'_succ ord rest.length 1]

/-- The assembled stops reference exactly the tour's containers, in tour
order. -/
theorem assemble_stops_ids (dm : ℕ → ℕ → ℚ) (cache : ℕ × ℕ → Option (Option Geometry))
    (containers : List Container) :
    ∀ (t : List ℕ) (prev ord : ℕ) (cum : ℚ),
      (RouteOptimizer.assemble_stops dm cache containers t prev ord cum).map
          (fun s => s.container_id)
        = t.map (fun c => (containers.getD c dummyContainer).container_id)
  | [], _, _, _ => rfl
  | c :: rest, prev, ord, cum => by
    simp only [RouteOptimizer.assemble_stops, List.map_cons]
    rw [assemble_stops_ids dm cache containers rest (c + 1) (ord + 1) _]

/-- The sum of the assembled stops' leg distances is the open path cost from
the starting index through the tour. -/
theorem assemble_stops_legs (dm : ℕ → ℕ → ℚ) (cache : ℕ × ℕ → Option (Option Geometry))
    (containers : List Container) :
    ∀ (t : List ℕ) (prev ord : ℕ) (cum : ℚ),
      ((RouteOptimizer.assemble_stops dm cache containers t prev ord cum).map
          (fun s => s.distance_from_previous)).sum
        = pathCost dm (prev :: t.map (· + 1))
  | [], _, _, _ => by simp [RouteOptimizer.assemble_stops, pathCost]
  | c :: rest, prev, ord, cum => by
    simp only [RouteOptimizer.assemble_stops, List.map_cons, List.sum_cons]
    rw [assemble_stops_legs dm cache containers rest (c + 1) (ord + 1) _, pathCost]

/-- Reading a container list back through `getD` over its index range. -/
theorem map_getD_range (containers : List Container) :
    (List.range containers.length).map
        (fun c => (containers.getD c dummyContainer).container_id)
      = containers.map (fun c => c.container_id) := by
  induction containers with
  | nil => rfl
  | cons a t ih =>
    simp only [List.length_cons, List.range_succ_eq_map, List.map_cons, List.map_map,
      List.getD_cons_zero]
    rw [← ih]
    congr 1

/-- Unfolding `optimize_route` on a non-empty input. -/
theorem optimize_route_eq (world : World) (hv : Loc → Loc → ℚ) (pick : Pick) (fuel : ℕ)
    (neighborhood : String) (containers : List Container) (cap : ℕ)
    (depotArg : Option Loc) (hne : containers ≠ []) :
    RouteOptimizer.optimize_route world hv pick fuel neighborhood containers cap depotArg =
      .ok { neighborhood := neighborhood,
            vehicle_type := (containers.headD dummyContainer).vehicle_type,
            total_distance_km := RouteOptimizer.total_with_return world hv
              (depotArg.getD DEPOT_LOCATION)
              (RouteOptimizer.create_aco_route world hv pick ACO_NUM_ANTS ACO_NUM_ITERATIONS
                fuel (depotArg.getD DEPOT_LOCATION) (containers.take cap)),
            total_containers := (containers.take cap).length,
            stops := RouteOptimizer.create_aco_route world hv pick ACO_NUM_ANTS
              ACO_NUM_ITERATIONS fuel (depotArg.getD DEPOT_LOCATION) (containers.take cap),
            requires_multiple_trips := decide (containers.length > cap),
            trip_count := (containers.length + cap - 1) / cap } := by
  cases containers with
  | nil => exact absurd rfl hne
  | cons c rest =>
    unfold RouteOptimizer.optimize_route
    rw [if_neg hne]
    rfl

/-- Shared shape of a successful `optimize_route` run under a valid picker:
the stops assemble a winning tour over the truncated container list, the trip
metadata is as computed up front, and the total is `total_with_return`. -/
theorem optimize_route_aco_spec (world : World) (hv : Loc → Loc → ℚ) (pick : Pick)
    (fuel : ℕ) (neighborhood : String) (containers : List Container) (cap : ℕ)
    (depotArg : Option Loc) (hpick : ValidPick pick) (hne : containers ≠ [])
    (hcap : 0 < cap) :
    ∃ r tour,
      RouteOptimizer.optimize_route world hv pick fuel neighborhood containers cap depotArg
        = .ok r ∧
      tour.Perm (List.range (containers.take cap).length) ∧
      r.stops = RouteOptimizer.assemble_stops
        (RouteOptimizer.build_distance_matrix world hv (depotArg.getD DEPOT_LOCATION)
          (containers.take cap)).1
        (RouteOptimizer.build_distance_matrix world hv (depotArg.getD DEPOT_LOCATION)
          (containers.take cap)).2
        (containers.take cap) tour 0 1 0 ∧
      r.total_containers = (containers.take cap).length ∧
      r.requires_multiple_trips = decide (containers.length > cap) ∧
      r.trip_count = (containers.length + cap - 1) / cap ∧
      r.total_distance_km = RouteOptimizer.total_with_return world hv
        (depotArg.getD DEPOT_LOCATION) r.stops := by
  have htake : containers.take cap ≠ [] := by
    rw [Ne, List.take_eq_nil_iff]
    push_neg
    exact ⟨by omega, hne⟩
  obtain ⟨tour, hperm, hstops⟩ := create_aco_route_spec world hv pick hpick
    ACO_NUM_ANTS ACO_NUM_ITERATIONS fuel (by norm_num [ACO_NUM_ANTS])
    (by norm_num [ACO_NUM_ITERATIONS]) (depotArg.getD DEPOT_LOCATION)
    (containers.take cap) htake
  exact ⟨_, tour,
    optimize_route_eq world hv pick fuel neighborhood containers cap depotArg hne,
    hperm, hstops, rfl, rfl, rfl, rfl⟩

/-- Ceiling division via the `(a + b - 1) / b` formula. -/
theorem nat_ceil_div (a b : ℕ) (hb : 0 < b) :
    (((a + b - 1) / b : ℕ) : ℤ) = Int.ceil ((a : ℚ) / (b : ℚ)) := by
  have hbq : (0:ℚ) < (b:ℚ) := by exact_mod_cast hb
  symm
  rw [Int.ceil_eq_iff]
  have h1 : ((a + b - 1) / b) * b ≤ a + b - 1 := Nat.div_mul_le_self _ _
  have h2 : a + b - 1 < ((a + b - 1) / b + 1) * b :=
    (Nat.div_lt_iff_lt_mul hb).mp (Nat.lt_succ_self _)
  have hm1 : (((a + b - 1) / b : ℕ) : ℚ) * (b : ℚ) ≤ ((a + b - 1 : ℕ) : ℚ) := by
    exact_mod_cast h1
  have hm2 : ((a + b - 1 : ℕ) : ℚ) < ((((a + b - 1) / b : ℕ) : ℚ) + 1) * (b : ℚ) := by
    exact_mod_cast h2
  have hm3 : ((a + b - 1 : ℕ) : ℚ) + 1 = (a : ℚ) + (b : ℚ) := by
    exact_mod_cast (by omega : a + b - 1 + 1 = a + b)
  constructor
  · rw [Int.cast_natCast, lt_div_iff₀ hbq]
    linarith [hm1, hm3]
  · rw [Int.cast_natCast, div_le_iff₀ hbq]
    have h3 : a ≤ ((a + b - 1) / b) * b := by
      have h2' : a + b - 1 < ((a + b - 1) / b) * b + b := by
        calc a + b - 1 < ((a + b - 1) / b + 1) * b := h2
        _ = ((a + b - 1) / b) * b + b := by ring
      generalize ((a + b - 1) / b) * b = Q at h2' ⊢
      omega
    exact_mod_cast h3

/-- Claim C3: for every non-empty list of capacity-limited stops (and valid
random draws), the RouteResult contains each routed stop exactly once — the
stops' container ids are a permutation of the truncated input's ids — with
consecutive 1-based order ranks. -/
theorem c3_each_stop_visited_once (world : World) (hv : Loc → Loc → ℚ) (pick : Pick)
    (fuel : ℕ) (neighborhood : String) (containers : List Container) (cap : ℕ)
    (depotArg : Option Loc) (hpick : ValidPick pick) (hne : containers ≠ [])
    (hcap : 0 < cap) :
    ∃ r, RouteOptimizer.optimize_route world hv pick fuel neighborhood containers cap
        depotArg = .ok r ∧
      (r.stops.map (fun s => s.container_id)).Perm
        ((containers.take cap).map (fun c => c.container_id)) ∧
      r.stops.map (fun s => s.order) = List.range' 1 (containers.take cap).length := by
  obtain ⟨r, tour, hok, hperm, hstops, -, -, -, -⟩ :=
    optimize_route_aco_spec world hv pick fuel neighborhood containers cap depotArg
      hpick hne hcap
  have hlen : tour.length = (containers.take cap).length := by
    rw [hperm.length_eq, List.length_range]
  refine ⟨r, hok, ?_, ?_⟩
  · rw [hstops, assemble_stops_ids]
    have hmapped := hperm.map
      (fun c => ((containers.take cap).getD c dummyContainer).container_id)
    rw [map_getD_range (containers.take cap)] at hmapped
    exact hmapped
  · rw [hstops, assemble_stops_orders, hlen]

/-- Witness for C3 at a concrete world, picker and container list. -/
theorem c3_each_stop_visited_once_witness :
    ∃ r, RouteOptimizer.optimize_route (fun _ _ => .noRoute) (fun _ _ => 0)
        (fun _ l _ => l.headD 0) 1 "w" [⟨5, 1, 2, "t"⟩] 40 none = .ok r ∧
      (r.stops.map (fun s => s.container_id)).Perm
        ((([⟨5, 1, 2, "t"⟩] : List Container).take 40).map (fun c => c.container_id)) ∧
      r.stops.map (fun s => s.order) =
        List.range' 1 (([⟨5, 1, 2, "t"⟩] : List Container).take 40).length :=
  c3_each_stop_visited_once (fun _ _ => .noRoute) (fun _ _ => 0) (fun _ l _ => l.headD 0)
    1 "w" [⟨5, 1, 2, "t"⟩] 40 none
    (by
      intro s l w h
      cases l with
      | nil => exact absurd rfl h
      | cons a t => exact List.mem_cons_self a t)
    (by simp) (by omega)

/-- Claim C4: for a non-empty stop list and positive capacity, the result
flags multiple trips exactly when the stop count exceeds the capacity, and
the trip count is the ceiling of stop count over capacity. -/
theorem c4_trip_flags (world : World) (hv : Loc → Loc → ℚ) (pick : Pick)
    (fuel : ℕ) (neighborhood : String) (containers : List Container) (cap : ℕ)
    (depotArg : Option Loc) (hne : containers ≠ []) (hcap : 0 < cap) :
    ∃ r, RouteOptimizer.optimize_route world hv pick fuel neighborhood containers cap
        depotArg = .ok r ∧
      (r.requires_multiple_trips = true ↔ cap < containers.length) ∧
      (r.trip_count : ℤ) = Int.ceil ((containers.length : ℚ) / (cap : ℚ)) := by
  refine ⟨_, optimize_route_eq world hv pick fuel neighborhood containers cap depotArg hne,
    ?_, ?_⟩
  · simp [decide_eq_true_iff]
  · exact nat_ceil_div containers.length cap hcap

/-- Witness for C4 at a concrete input: three stops, capacity two. -/
theorem c4_trip_flags_witness :
    ∃ r, RouteOptimizer.optimize_route (fun _ _ => .noRoute) (fun _ _ => 0)
        (fun _ l _ => l.headD 0) 1 "w"
        [⟨1, 0, 0, "t"⟩, ⟨2, 0, 0, "t"⟩, ⟨3, 0, 0, "t"⟩] 2 none = .ok r ∧
      (r.requires_multiple_trips = true ↔ 2 <
        ([⟨1, 0, 0, "t"⟩, ⟨2, 0, 0, "t"⟩, ⟨3, 0, 0, "t"⟩] : List Container).length) ∧
      (r.trip_count : ℤ) = Int.ceil
        ((([⟨1, 0, 0, "t"⟩, ⟨2, 0, 0, "t"⟩, ⟨3, 0, 0, "t"⟩] : List Container).length : ℚ)
          / (2 : ℚ)) :=
  c4_trip_flags (fun _ _ => .noRoute) (fun _ _ => 0) (fun _ l _ => l.headD 0) 1 "w"
    [⟨1, 0, 0, "t"⟩, ⟨2, 0, 0, "t"⟩, ⟨3, 0, 0, "t"⟩] 2 none (by simp) (by omega)

/-- Claim C5: when the stop count exceeds the capacity, exactly the first
`capacity` stops in input order are routed — the result's stops are a
permutation of `containers.take capacity` — and the routed-stop count is
`min(stop count, capacity)` (here `capacity`). -/
theorem c5_capacity_truncation (world : World) (hv : Loc → Loc → ℚ) (pick : Pick)
    (fuel : ℕ) (neighborhood : String) (containers : List Container) (cap : ℕ)
    (depotArg : Option Loc) (hpick : ValidPick pick) (hcap : 0 < cap)
    (hover : cap < containers.length) :
    ∃ r, RouteOptimizer.optimize_route world hv pick fuel neighborhood containers cap
        depotArg = .ok r ∧
      (r.stops.map (fun s => s.container_id)).Perm
        ((containers.take cap).map (fun c => c.container_id)) ∧
      r.total_containers = min containers.length cap ∧
      r.total_containers = cap := by
  have hne : containers ≠ [] := by
    intro h
    rw [h] at hover
    simp at hover
  obtain ⟨r, tour, hok, hperm, hstops, hcount, -, -, -⟩ :=
    optimize_route_aco_spec world hv pick fuel neighborhood containers cap depotArg
      hpick hne hcap
  refine ⟨r, hok, ?_, ?_, ?_⟩
  · rw [hstops, assemble_stops_ids]
    have hmapped := hperm.map
      (fun c => ((containers.take cap).getD c dummyContainer).container_id)
    rw [map_getD_range (containers.take cap)] at hmapped
    exact hmapped
  · rw [hcount, List.length_take, Nat.min_comm]
  · rw [hcount, List.length_take]
    omega

/-- Witness for C5: two stops, capacity one. -/
theorem c5_capacity_truncation_witness :
    ∃ r, RouteOptimizer.optimize_route (fun _ _ => .noRoute) (fun _ _ => 0)
        (fun _ l _ => l.headD 0) 1 "w" [⟨1, 0, 0, "t"⟩, ⟨2, 3, 4, "t"⟩] 1 none = .ok r ∧
      (r.stops.map (fun s => s.container_id)).Perm
        ((([⟨1, 0, 0, "t"⟩, ⟨2, 3, 4, "t"⟩] : List Container).take 1).map
          (fun c => c.container_id)) ∧
      r.total_containers =
        min ([⟨1, 0, 0, "t"⟩, ⟨2, 3, 4, "t"⟩] : List Container).length 1 ∧
      r.total_containers = 1 :=
  c5_capacity_truncation (fun _ _ => .noRoute) (fun _ _ => 0) (fun _ l _ => l.headD 0)
    1 "w" [⟨1, 0, 0, "t"⟩, ⟨2, 3, 4, "t"⟩] 1 none
    (by
      intro s l w h
      cases l with
      | nil => exact absurd rfl h
      | cons a t => exact List.mem_cons_self a t)
    (by omega) (by simp)

/-- Claim C7: the optimizer entry point rejects an empty stop list with the
fatal input error (no RouteResult is produced), and for every non-empty stop
list this error is not raised — a RouteResult is returned. -/
theorem c7_empty_input_rejected (world : World) (hv : Loc → Loc → ℚ) (pick : Pick)
    (fuel : ℕ) (neighborhood : String) (containers : List Container) (cap : ℕ)
    (depotArg : Option Loc) :
    (containers = [] →
      RouteOptimizer.optimize_route world hv pick fuel neighborhood containers cap depotArg
        = .error "No containers provided") ∧
    (containers ≠ [] →
      ∃ r, RouteOptimizer.optimize_route world hv pick fuel neighborhood containers cap
        depotArg = .ok r) := by
  constructor
  · intro h
    subst h
    rfl
  · intro hne
    exact ⟨_, optimize_route_eq world hv pick fuel neighborhood containers cap depotArg hne⟩

/-- Witness for C7: the empty list is rejected and a singleton list is not. -/
theorem c7_empty_input_rejected_witness :
    (RouteOptimizer.optimize_route (fun _ _ => .noRoute) (fun _ _ => 0)
        (fun _ l _ => l.headD 0) 1 "w" [] 40 none = .error "No containers provided") ∧
    (∃ r, RouteOptimizer.optimize_route (fun _ _ => .noRoute) (fun _ _ => 0)
        (fun _ l _ => l.headD 0) 1 "w" [⟨1, 0, 0, "t"⟩] 40 none = .ok r) :=
  ⟨(c7_empty_input_rejected (fun _ _ => .noRoute) (fun _ _ => 0) (fun _ l _ => l.headD 0)
      1 "w" [] 40 none).1 rfl,
   (c7_empty_input_rejected (fun _ _ => .noRoute) (fun _ _ => 0) (fun _ l _ => l.headD 0)
      1 "w" [⟨1, 0, 0, "t"⟩] 40 none).2 (by simp)⟩

/-- The haversine estimate between identical coordinates is zero. -/
theorem haversine_self (p : Loc) : haversine p p = 0 := by
  simp [haversine, radians]

/-- Claim C1 (amended): for every ordered in-range pair `i ≠ j`, no failure
of the oracle escapes the matrix builder (the builder is total); on a
network/provider failure the stored distance is the haversine great-circle
estimate (Earth radius 6371 km) and the cache entry for the pair exists but
holds no polyline; on a "no route" response the stored distance is the
sentinel `999.0` — not the haversine estimate — and no cache entry is
created for the pair. -/
theorem c1_oracle_fallback_amended (world : World) (depot : Loc)
    (containers : List Container) (i j : ℕ) (hij : i ≠ j)
    (hi : i < containers.length + 1) (hj : j < containers.length + 1) :
    (world ((RouteOptimizer.locationsOf depot containers).getD i depot)
        ((RouteOptimizer.locationsOf depot containers).getD j depot) = .netFail →
      (RouteOptimizer.build_distance_matrix (α := ℝ) world haversine depot containers).1 i j
        = haversine ((RouteOptimizer.locationsOf depot containers).getD i depot)
            ((RouteOptimizer.locationsOf depot containers).getD j depot) ∧
      (RouteOptimizer.build_distance_matrix (α := ℝ) world haversine depot containers).2
        (i, j) = some none) ∧
    (world ((RouteOptimizer.locationsOf depot containers).getD i depot)
        ((RouteOptimizer.locationsOf depot containers).getD j depot) = .noRoute →
      (RouteOptimizer.build_distance_matrix (α := ℝ) world haversine depot containers).1 i j
        = 999 ∧
      (RouteOptimizer.build_distance_matrix (α := ℝ) world haversine depot containers).2
        (i, j) = none) := by
  have hcond : ¬ (i = j ∨ containers.length + 1 ≤ i ∨ containers.length + 1 ≤ j) := by
    push_neg
    exact ⟨hij, by omega, by omega⟩
  constructor
  · intro hw
    constructor
    · simp only [RouteOptimizer.build_distance_matrix, if_neg hcond,
        OSRMClient.get_distance, hw]
    · simp only [RouteOptimizer.build_distance_matrix, if_neg hcond,
        OSRMClient.get_distance, hw]
  · intro hw
    constructor
    · simp only [RouteOptimizer.build_distance_matrix, if_neg hcond,
        OSRMClient.get_distance, hw]
    · simp only [RouteOptimizer.build_distance_matrix, if_neg hcond,
        OSRMClient.get_distance, hw]

/-- Witness for the amended C1 at a concrete world and container list. -/
theorem c1_oracle_fallback_amended_witness :
    ((fun _ _ => OracleOutcome.netFail : World)
        ((RouteOptimizer.locationsOf DEPOT_LOCATION [⟨1, 10, 20, "t"⟩]).getD 0 DEPOT_LOCATION)
        ((RouteOptimizer.locationsOf DEPOT_LOCATION [⟨1, 10, 20, "t"⟩]).getD 1 DEPOT_LOCATION)
        = .netFail →
      (RouteOptimizer.build_distance_matrix (α := ℝ) (fun _ _ => OracleOutcome.netFail)
          haversine DEPOT_LOCATION [⟨1, 10, 20, "t"⟩]).1 0 1
        = haversine
            ((RouteOptimizer.locationsOf DEPOT_LOCATION [⟨1, 10, 20, "t"⟩]).getD 0
              DEPOT_LOCATION)
            ((RouteOptimizer.locationsOf DEPOT_LOCATION [⟨1, 10, 20, "t"⟩]).getD 1
              DEPOT_LOCATION) ∧
      (RouteOptimizer.build_distance_matrix (α := ℝ) (fun _ _ => OracleOutcome.netFail)
          haversine DEPOT_LOCATION [⟨1, 10, 20, "t"⟩]).2 (0, 1) = some none) ∧
    ((fun _ _ => OracleOutcome.netFail : World)
        ((RouteOptimizer.locationsOf DEPOT_LOCATION [⟨1, 10, 20, "t"⟩]).getD 0 DEPOT_LOCATION)
        ((RouteOptimizer.locationsOf DEPOT_LOCATION [⟨1, 10, 20, "t"⟩]).getD 1 DEPOT_LOCATION)
        = .noRoute →
      (RouteOptimizer.build_distance_matrix (α := ℝ) (fun _ _ => OracleOutcome.netFail)
          haversine DEPOT_LOCATION [⟨1, 10, 20, "t"⟩]).1 0 1 = 999 ∧
      (RouteOptimizer.build_distance_matrix (α := ℝ) (fun _ _ => OracleOutcome.netFail)
          haversine DEPOT_LOCATION [⟨1, 10, 20, "t"⟩]).2 (0, 1) = none) :=
  c1_oracle_fallback_amended (fun _ _ => OracleOutcome.netFail) DEPOT_LOCATION
    [⟨1, 10, 20, "t"⟩] 0 1 (by decide) (by decide) (by decide)

/-- Claim C1 counterexample: two containers at identical coordinates, the
provider reporting "no route" for the pair.  The matrix stores the sentinel
`999.0` for the pair, while the haversine great-circle estimate for the same
pair is `0` — the stored distance is not the haversine estimate. -/
theorem c1_sentinel_not_haversine_counterexample :
    (RouteOptimizer.build_distance_matrix (α := ℝ) (fun _ _ => OracleOutcome.noRoute)
        haversine DEPOT_LOCATION [⟨1, 10, 20, "t"⟩, ⟨2, 10, 20, "t"⟩]).1 1 2 = 999 ∧
    haversine
        ((RouteOptimizer.locationsOf DEPOT_LOCATION
          [⟨1, 10, 20, "t"⟩, ⟨2, 10, 20, "t"⟩]).getD 1 DEPOT_LOCATION)
        ((RouteOptimizer.locationsOf DEPOT_LOCATION
          [⟨1, 10, 20, "t"⟩, ⟨2, 10, 20, "t"⟩]).getD 2 DEPOT_LOCATION) = 0 ∧
    (RouteOptimizer.build_distance_matrix (α := ℝ) (fun _ _ => OracleOutcome.noRoute)
        haversine DEPOT_LOCATION [⟨1, 10, 20, "t"⟩, ⟨2, 10, 20, "t"⟩]).1 1 2 ≠
      haversine
        ((RouteOptimizer.locationsOf DEPOT_LOCATION
          [⟨1, 10, 20, "t"⟩, ⟨2, 10, 20, "t"⟩]).getD 1 DEPOT_LOCATION)
        ((RouteOptimizer.locationsOf DEPOT_LOCATION
          [⟨1, 10, 20, "t"⟩, ⟨2, 10, 20, "t"⟩]).getD 2 DEPOT_LOCATION) := by
  have hloc1 : (RouteOptimizer.locationsOf DEPOT_LOCATION
      [⟨1, 10, 20, "t"⟩, ⟨2, 10, 20, "t"⟩]).getD 1 DEPOT_LOCATION = ((10 : ℚ), (20 : ℚ)) := by
    rfl
  have hloc2 : (RouteOptimizer.locationsOf DEPOT_LOCATION
      [⟨1, 10, 20, "t"⟩, ⟨2, 10, 20, "t"⟩]).getD 2 DEPOT_LOCATION = ((10 : ℚ), (20 : ℚ)) := by
    rfl
  have hentry : (RouteOptimizer.build_distance_matrix (α := ℝ)
      (fun _ _ => OracleOutcome.noRoute) haversine DEPOT_LOCATION
      [⟨1, 10, 20, "t"⟩, ⟨2, 10, 20, "t"⟩]).1 1 2 = 999 := by
    simp only [RouteOptimizer.build_distance_matrix, OSRMClient.get_distance]
    norm_num
  have hhv : haversine
      ((RouteOptimizer.locationsOf DEPOT_LOCATION
        [⟨1, 10, 20, "t"⟩, ⟨2, 10, 20, "t"⟩]).getD 1 DEPOT_LOCATION)
      ((RouteOptimizer.locationsOf DEPOT_LOCATION
        [⟨1, 10, 20, "t"⟩, ⟨2, 10, 20, "t"⟩]).getD 2 DEPOT_LOCATION) = 0 := by
    rw [hloc1, hloc2]
    exact haversine_self _
  refine ⟨hentry, hhv, ?_⟩
  rw [hentry, hhv]
  norm_num

/-- Claim C8 (amended): for every non-empty routed stop list (valid draws,
positive capacity), the result's total distance equals the sum of the winning
tour's legs — the matrix distances depot → first stop → … → last stop — plus
the freshly queried oracle distance from the last stop back to the depot when
that query yields a distance; when the query reports no route, the closing
leg is omitted (nothing is added). -/
theorem c8_total_distance_amended (world : World) (hv : Loc → Loc → ℚ) (pick : Pick)
    (fuel : ℕ) (neighborhood : String) (containers : List Container) (cap : ℕ)
    (depotArg : Option Loc) (hpick : ValidPick pick) (hne : containers ≠ [])
    (hcap : 0 < cap) :
    ∃ r tour,
      RouteOptimizer.optimize_route world hv pick fuel neighborhood containers cap depotArg
        = .ok r ∧
      tour.Perm (List.range (containers.take cap).length) ∧
      r.stops = RouteOptimizer.assemble_stops
        (RouteOptimizer.build_distance_matrix world hv (depotArg.getD DEPOT_LOCATION)
          (containers.take cap)).1
        (RouteOptimizer.build_distance_matrix world hv (depotArg.getD DEPOT_LOCATION)
          (containers.take cap)).2
        (containers.take cap) tour 0 1 0 ∧
      r.total_distance_km =
        pathCost (RouteOptimizer.build_distance_matrix world hv
            (depotArg.getD DEPOT_LOCATION) (containers.take cap)).1
          (0 :: tour.map (· + 1)) +
        (match r.stops.getLast? with
         | none => 0
         | some last_stop =>
           match (OSRMClient.get_distance (α := ℚ) world hv
               (last_stop.latitude, last_stop.longitude)
               (depotArg.getD DEPOT_LOCATION)).1 with
           | some return_distance => return_distance
           | none => 0) := by
  obtain ⟨r, tour, hok, hperm, hstops, -, -, -, htotal⟩ :=
    optimize_route_aco_spec world hv pick fuel neighborhood containers cap depotArg
      hpick hne hcap
  refine ⟨r, tour, hok, hperm, hstops, ?_⟩
  have hlegs : (r.stops.map (fun s => s.distance_from_previous)).sum
      = pathCost (RouteOptimizer.build_distance_matrix world hv
          (depotArg.getD DEPOT_LOCATION) (containers.take cap)).1
        (0 :: tour.map (· + 1)) := by
    rw [hstops, assemble_stops_legs]
  rw [htotal, RouteOptimizer.total_with_return]
  cases hlast : r.stops.getLast? with
  | none =>
    simp only [hlegs, add_zero]
  | some last_stop =>
    cases horacle : (OSRMClient.get_distance (α := ℚ) world hv
        (last_stop.latitude, last_stop.longitude) (depotArg.getD DEPOT_LOCATION)).1 with
    | none => simp only [horacle, hlegs, add_zero]
    | some d => simp only [horacle, hlegs]

/-- Witness for the amended C8 at a concrete input. -/
theorem c8_total_distance_amended_witness :
    ∃ r tour,
      RouteOptimizer.optimize_route (fun _ _ => OracleOutcome.noRoute) (fun _ _ => 0)
        (fun _ l _ => l.headD 0) 1 "w" [⟨7, 10, 20, "t"⟩] 40 none = .ok r ∧
      tour.Perm (List.range (([⟨7, 10, 20, "t"⟩] : List Container).take 40).length) ∧
      r.stops = RouteOptimizer.assemble_stops
        (RouteOptimizer.build_distance_matrix (α := ℚ) (fun _ _ => OracleOutcome.noRoute)
          (fun _ _ => 0) ((none : Option Loc).getD DEPOT_LOCATION)
          (([⟨7, 10, 20, "t"⟩] : List Container).take 40)).1
        (RouteOptimizer.build_distance_matrix (α := ℚ) (fun _ _ => OracleOutcome.noRoute)
          (fun _ _ => 0) ((none : Option Loc).getD DEPOT_LOCATION)
          (([⟨7, 10, 20, "t"⟩] : List Container).take 40)).2
        (([⟨7, 10, 20, "t"⟩] : List Container).take 40) tour 0 1 0 ∧
      r.total_distance_km =
        pathCost (RouteOptimizer.build_distance_matrix (α := ℚ) (fun _ _ => OracleOutcome.noRoute)
            (fun _ _ => 0) ((none : Option Loc).getD DEPOT_LOCATION)
            (([⟨7, 10, 20, "t"⟩] : List Container).take 40)).1
          (0 :: tour.map (· + 1)) +
        (match r.stops.getLast? with
         | none => 0
         | some last_stop =>
           match (OSRMClient.get_distance (α := ℚ) (fun _ _ => OracleOutcome.noRoute)
               (fun _ _ => 0) (last_stop.latitude, last_stop.longitude)
               ((none : Option Loc).getD DEPOT_LOCATION)).1 with
           | some return_distance => return_distance
           | none => 0) :=
  c8_total_distance_amended (fun _ _ => OracleOutcome.noRoute) (fun _ _ => 0)
    (fun _ l _ => l.headD 0) 1 "w" [⟨7, 10, 20, "t"⟩] 40 none
    (by
      intro s l w h
      cases l with
      | nil => exact absurd rfl h
      | cons a t => exact List.mem_cons_self a t)
    (by simp) (by omega)

set_option maxHeartbeats 1000000 in
/-- Claim C8 counterexample: one stop, the provider reporting "no route" for
every pair.  Both legs of the depot–stop round trip carry the sentinel 999 in
the distance matrix, but the returned total distance is 999, not the
999 + 999 = 1998 of "every leg plus the closing leg": the fresh closing-leg
query yields no distance and is silently skipped. -/
theorem c8_missing_return_leg_counterexample :
    ((RouteOptimizer.optimize_route (fun _ _ => OracleOutcome.noRoute) (fun _ _ => 0)
        (fun _ l _ => l.headD 0) 1 "w" [⟨7, 10, 20, "t"⟩] 40 none).toOption.map
      (fun r => r.total_distance_km)) = some 999 ∧
    (RouteOptimizer.build_distance_matrix (α := ℚ) (fun _ _ => OracleOutcome.noRoute)
        (fun _ _ => 0) DEPOT_LOCATION [⟨7, 10, 20, "t"⟩]).1 0 1 = 999 ∧
    (RouteOptimizer.build_distance_matrix (α := ℚ) (fun _ _ => OracleOutcome.noRoute)
        (fun _ _ => 0) DEPOT_LOCATION [⟨7, 10, 20, "t"⟩]).1 1 0 = 999 ∧
    (999 : ℚ) ≠ 999 + 999 := by
  have hpick : ValidPick (fun _ l _ => l.headD 0) := by
    intro s l w h
    cases l with
    | nil => exact absurd rfl h
    | cons a t => exact List.mem_cons_self a t
  have hdm01 : (RouteOptimizer.build_distance_matrix (α := ℚ)
      (fun _ _ => OracleOutcome.noRoute) (fun _ _ => 0) DEPOT_LOCATION
      [⟨7, 10, 20, "t"⟩]).1 0 1 = 999 := by
    simp only [RouteOptimizer.build_distance_matrix, OSRMClient.get_distance]
    norm_num
  have hdm10 : (RouteOptimizer.build_distance_matrix (α := ℚ)
      (fun _ _ => OracleOutcome.noRoute) (fun _ _ => 0) DEPOT_LOCATION
      [⟨7, 10, 20, "t"⟩]).1 1 0 = 999 := by
    simp only [RouteOptimizer.build_distance_matrix, OSRMClient.get_distance]
    norm_num
  refine ⟨?_, hdm01, hdm10, by norm_num⟩
  obtain ⟨r, tour, hok, hperm, hstops, -, -, -, htotal⟩ :=
    optimize_route_aco_spec (fun _ _ => OracleOutcome.noRoute) (fun _ _ => 0)
      (fun _ l _ => l.headD 0) 1 "w" [⟨7, 10, 20, "t"⟩] 40 none hpick (by simp)
      (by omega)
  have htake40 : List.take 40 ([⟨7, 10, 20, "t"⟩] : List Container)
      = [⟨7, 10, 20, "t"⟩] := rfl
  have hdep : (none : Option Loc).getD DEPOT_LOCATION = DEPOT_LOCATION := rfl
  rw [htake40, hdep] at hstops
  rw [hdep] at htotal
  have hrange : List.range (List.take 40 ([⟨7, 10, 20, "t"⟩] : List Container)).length
      = [0] := rfl
  rw [hrange] at hperm
  have htour : tour = [0] := List.perm_singleton.mp hperm
  rw [hok]
  have hr : r.total_distance_km = 999 := by
    rw [htotal, hstops, htour]
    simp only [RouteOptimizer.assemble_stops, RouteOptimizer.total_with_return,
      OSRMClient.get_distance, List.map_cons, List.map_nil, List.sum_cons, List.sum_nil]
    rw [hdm01]
    norm_num
  simp [Except.toOption, hr]

end RouteOpt
